import Mathlib

/-!
# RightPlace rating ledger: shallow embedding of the chaincode

The development embeds `mvp/app/chaincode/chaincode/smartcontract.go` in Lean.

* Go `string` and `[]byte` values are byte sequences: `GoString := List Nat`, every
  element standing for one byte.  Go's `int` is the 64-bit two's-complement integer; it is an
  `Int` in the range recognised by `isInt64`, and additions wrap through `wrap64`.
* `encoding/json` is embedded for the `Rating` struct: `jsonMarshal` follows
  `json.Marshal` (key order and names of the struct tags, string escaping with the HTML-safe
  set, coercion of invalid UTF-8 to U+FFFD) and `jsonUnmarshal` follows `json.Unmarshal`
  (syntax check of the whole input, case-insensitive match of the keys, last duplicate wins,
  a type mismatch is an error).
* The ledger stub of the transaction context is the record `Stub`: the world state as a
  key-sorted association list, together with the answers of the host for each call that can
  fail (`GetState`, `PutState`, `DelState`, `GetStateByRange`, the iterator's `Next`).
* `float64` is a parameter (`Float64Ops`): conversion from `int`, division, comparison and
  the `%.2f` rendering.  The iteration order of a Go map and `sort.Slice` are parameters of
  `GetRating` as well, constrained by their documented contracts.

Left out of the embedding: the limit of `encoding/json` on the nesting depth of a document
(10000 levels), the text of the errors of `encoding/json`, and the overflow of the record
counters, which would need 2^63 records.
-/

namespace RightPlace

/-! ## Byte strings and UTF-8 (`unicode/utf8`) -/

/-- A Go `string` (or `[]byte`): its sequence of bytes. -/
abbrev GoString := List Nat

/-- The bytes of an ASCII literal of the source. -/
def lit (s : String) : GoString := s.toList.map Char.toNat

/-- The rune `utf8.RuneError` (U+FFFD). -/
def RuneError : Nat := 0xFFFD

/-- Lower bound of the second byte accepted after the leading byte `p0`
(`acceptRanges` of `unicode/utf8`). -/
def acceptLo (p0 : Nat) : Nat :=
  if p0 = 0xE0 then 0xA0 else if p0 = 0xF0 then 0x90 else 0x80

/-- Upper bound of the second byte accepted after the leading byte `p0`. -/
def acceptHi (p0 : Nat) : Nat :=
  if p0 = 0xED then 0x9F else if p0 = 0xF4 then 0x8F else 0xBF

/-- The function `utf8.DecodeRune`: the first rune of the input and its width in bytes;
`(RuneError, 1)` for an invalid encoding and `(RuneError, 0)` for the empty input.  The
masks and shifts of the source are written as the equal subtractions and multiplications. -/
def decodeRune : GoString → Nat × Nat
  | [] => (RuneError, 0)
  | p0 :: rest =>
    if p0 < 0x80 then (p0, 1)
    else if p0 < 0xC2 then (RuneError, 1)
    else if p0 < 0xE0 then
      match rest with
      | b1 :: _ =>
        if 0x80 ≤ b1 ∧ b1 ≤ 0xBF then ((p0 - 0xC0) * 64 + (b1 - 0x80), 2)
        else (RuneError, 1)
      | [] => (RuneError, 1)
    else if p0 < 0xF0 then
      match rest with
      | b1 :: b2 :: _ =>
        if acceptLo p0 ≤ b1 ∧ b1 ≤ acceptHi p0 ∧ 0x80 ≤ b2 ∧ b2 ≤ 0xBF then
          ((p0 - 0xE0) * 4096 + (b1 - 0x80) * 64 + (b2 - 0x80), 3)
        else (RuneError, 1)
      | _ => (RuneError, 1)
    else if p0 < 0xF5 then
      match rest with
      | b1 :: b2 :: b3 :: _ =>
        if acceptLo p0 ≤ b1 ∧ b1 ≤ acceptHi p0 ∧ 0x80 ≤ b2 ∧ b2 ≤ 0xBF
            ∧ 0x80 ≤ b3 ∧ b3 ≤ 0xBF then
          ((p0 - 0xF0) * 262144 + (b1 - 0x80) * 4096 + (b2 - 0x80) * 64 + (b3 - 0x80), 4)
        else (RuneError, 1)
      | _ => (RuneError, 1)
    else (RuneError, 1)

/-- The function `utf8.AppendRune`: the UTF-8 encoding of a rune; surrogates and values
beyond U+10FFFF are written as U+FFFD. -/
def encodeRune (r : Nat) : GoString :=
  if r < 0x80 then [r]
  else if r < 0x800 then [0xC0 + r / 64, 0x80 + r % 64]
  else if 0x10FFFF < r ∨ (0xD800 ≤ r ∧ r ≤ 0xDFFF) then [0xEF, 0xBF, 0xBD]
  else if r < 0x10000 then [0xE0 + r / 4096, 0x80 + r / 64 % 64, 0x80 + r % 64]
  else [0xF0 + r / 262144, 0x80 + r / 4096 % 64, 0x80 + r / 64 % 64, 0x80 + r % 64]

/-- One step per rune over a string, as the loops of `encoding/json` walk it: the rune
found at each position together with the bytes it occupies.  The first argument bounds the
number of steps. -/
def runesAux : Nat → GoString → List (Nat × GoString)
  | 0, _ => []
  | _ + 1, [] => []
  | f + 1, b :: rest =>
    let d := decodeRune (b :: rest)
    (d.1, (b :: rest).take d.2) :: runesAux f ((b :: rest).drop d.2)

/-- The runes of a string with the bytes each one occupies. -/
def runes (s : GoString) : List (Nat × GoString) := runesAux s.length s

/-- The test `c == utf8.RuneError && size == 1`: the position holds no valid encoding. -/
def isBadRune (seg : Nat × GoString) : Bool := seg.1 == RuneError && seg.2.length == 1

/-- The string is valid UTF-8 (`utf8.ValidString`). -/
def validUTF8 (s : GoString) : Bool := (runes s).all (fun seg => !isBadRune seg)

/-- The string with every byte that starts no valid encoding replaced by U+FFFD. -/
def toValidUTF8 (s : GoString) : GoString :=
  (runes s).flatMap (fun seg => if isBadRune seg then [0xEF, 0xBF, 0xBD] else seg.2)


/-! ## Strings of `encoding/json` -/

/-- The digit of `0123456789abcdef` for a value below sixteen. -/
def hexDigit (n : Nat) : Nat := if n < 10 then 0x30 + n else 0x57 + n

/-- The escape `json.Marshal` writes for a byte below `utf8.RuneSelf`: the byte itself when
it is in `htmlSafeSet`, a two-character escape for the quote, the backslash and the
controls that have one, the six-character escape for the other controls and for the
characters `<`, `>` and `&`. -/
def escapeByte (b : Nat) : GoString :=
  if b = 0x22 ∨ b = 0x5C then [0x5C, b]
  else if b = 0x08 then [0x5C, 0x62]
  else if b = 0x0C then [0x5C, 0x66]
  else if b = 0x0A then [0x5C, 0x6E]
  else if b = 0x0D then [0x5C, 0x72]
  else if b = 0x09 then [0x5C, 0x74]
  else if b < 0x20 ∨ b = 0x3C ∨ b = 0x3E ∨ b = 0x26 then
    [0x5C, 0x75, 0x30, 0x30, hexDigit (b / 16), hexDigit (b % 16)]
  else [b]

/-- One iteration of the loop of `appendString`: what is written for the rune at the
current position. -/
def escapeRune (seg : Nat × GoString) : GoString :=
  match seg.2 with
  | [] => []
  | b :: _ =>
    if b < 0x80 then escapeByte b
    else if isBadRune seg then [0x5C, 0x75, 0x66, 0x66, 0x66, 0x64]
    else if seg.1 = 0x2028 ∨ seg.1 = 0x2029 then
      [0x5C, 0x75, 0x32, 0x30, 0x32, hexDigit (seg.1 % 16)]
    else seg.2

/-- The function `appendString` with `escapeHTML`: a string as a JSON string literal. -/
def appendString (s : GoString) : GoString :=
  0x22 :: ((runes s).flatMap escapeRune ++ [0x22])

/-- The value of a hexadecimal digit, of either case. -/
def hexVal (c : Nat) : Option Nat :=
  if 0x30 ≤ c ∧ c ≤ 0x39 then some (c - 0x30)
  else if 0x61 ≤ c ∧ c ≤ 0x66 then some (c - 0x57)
  else if 0x41 ≤ c ∧ c ≤ 0x46 then some (c - 0x37)
  else none

/-- The four hexadecimal digits of a `\u` escape as a number (`getu4`). -/
def hex4 (h1 h2 h3 h4 : Nat) : Option Nat :=
  match hexVal h1, hexVal h2, hexVal h3, hexVal h4 with
  | some a, some b, some c, some d => some (a * 4096 + b * 256 + c * 16 + d)
  | _, _, _, _ => none

/-- The escape `\uXXXX` at the head of the input, when there is one (`getu4`). -/
def getu4 : GoString → Option Nat
  | 0x5C :: 0x75 :: h1 :: h2 :: h3 :: h4 :: _ => hex4 h1 h2 h3 h4
  | _ => none

/-- The byte a two-character escape stands for. -/
def simpleEscape (e : Nat) : Option Nat :=
  if e = 0x22 ∨ e = 0x5C ∨ e = 0x2F then some e
  else if e = 0x62 then some 0x08
  else if e = 0x66 then some 0x0C
  else if e = 0x6E then some 0x0A
  else if e = 0x72 then some 0x0D
  else if e = 0x74 then some 0x09
  else none

/-- The function `utf16.DecodeRune`: the rune of a surrogate pair, U+FFFD when the two
values are no pair. -/
def utf16DecodeRune (r1 : Nat) (r2 : Option Nat) : Nat :=
  match r2 with
  | some lo =>
    if 0xD800 ≤ r1 ∧ r1 < 0xDC00 ∧ 0xDC00 ≤ lo ∧ lo < 0xE000 then
      (r1 - 0xD800) * 1024 + (lo - 0xDC00) + 0x10000
    else RuneError
  | none => RuneError

/-- The scan of a string literal and `unquoteBytes` in one pass, from the byte after the
opening quote: the decoded string and the input after the closing quote.  Invalid UTF-8 is
coerced to U+FFFD; a control character, an unknown escape and a missing closing quote are
errors.  The first argument bounds the number of steps. -/
def unquoteAux : Nat → GoString → Option (GoString × GoString)
  | 0, _ => none
  | _ + 1, [] => none
  | f + 1, c :: rest =>
    if c = 0x22 then some ([], rest)
    else if c = 0x5C then
      match rest with
      | [] => none
      | e :: rest1 =>
        if e = 0x75 then
          match rest1 with
          | h1 :: h2 :: h3 :: h4 :: rest2 =>
            match hex4 h1 h2 h3 h4 with
            | none => none
            | some rr =>
              if 0xD800 ≤ rr ∧ rr < 0xE000 then
                if utf16DecodeRune rr (getu4 rest2) ≠ RuneError then
                  (unquoteAux f (rest2.drop 6)).map
                    (fun r => (encodeRune (utf16DecodeRune rr (getu4 rest2)) ++ r.1, r.2))
                else (unquoteAux f rest2).map (fun r => (encodeRune RuneError ++ r.1, r.2))
              else (unquoteAux f rest2).map (fun r => (encodeRune rr ++ r.1, r.2))
          | _ => none
        else
          match simpleEscape e with
          | some b => (unquoteAux f rest1).map (fun r => (b :: r.1, r.2))
          | none => none
    else if c < 0x20 then none
    else if c < 0x80 then (unquoteAux f rest).map (fun r => (c :: r.1, r.2))
    else
      (unquoteAux f ((c :: rest).drop (decodeRune (c :: rest)).2)).map
        (fun r => (encodeRune (decodeRune (c :: rest)).1 ++ r.1, r.2))

/-- A JSON string literal at the head of the input: the decoded string and the rest. -/
def parseString : GoString → Option (GoString × GoString)
  | 0x22 :: rest => unquoteAux (rest.length + 1) rest
  | _ => none

/-! ## Integers (`strconv`) -/

/-- The value is a Go `int` (64 bits, two's complement). -/
def isInt64 (g : Int) : Prop := -9223372036854775808 ≤ g ∧ g ≤ 9223372036854775807

instance (g : Int) : Decidable (isInt64 g) := by unfold isInt64; infer_instance

/-- The result of an `int` operation: the exact value reduced to 64 bits, two's complement. -/
def wrap64 (x : Int) : Int := (x + 9223372036854775808) % 18446744073709551616 - 9223372036854775808

/-- The decimal digits of a number, most significant first; the first argument bounds their
count. -/
def natDigitsAux : Nat → Nat → GoString
  | 0, _ => []
  | f + 1, n => if n < 10 then [0x30 + n] else natDigitsAux f (n / 10) ++ [0x30 + n % 10]

/-- The function `strconv.AppendInt` in base ten for a Go `int` (at most nineteen digits). -/
def formatInt (g : Int) : GoString :=
  if g < 0 then 0x2D :: natDigitsAux 20 g.natAbs else natDigitsAux 20 g.natAbs

/-- The byte is a decimal digit. -/
def isDigit (c : Nat) : Bool := decide (0x30 ≤ c) && decide (c ≤ 0x39)

/-- The number written by a sequence of decimal digits. -/
def parseNat (ds : GoString) : Nat := ds.foldl (fun acc d => acc * 10 + (d - 0x30)) 0

/-- The function `strconv.ParseInt(s, 10, 64)` on a JSON number literal: the value of an
optional minus sign followed by digits only, when it fits 64 bits. -/
def parseInt (raw : GoString) : Option Int :=
  match raw with
  | 0x2D :: ds =>
    if ds ≠ [] ∧ ds.all isDigit = true ∧ parseNat ds ≤ 9223372036854775808 then
      some (-(parseNat ds : Int)) else none
  | ds =>
    if ds ≠ [] ∧ ds.all isDigit = true ∧ parseNat ds ≤ 9223372036854775807 then
      some (parseNat ds : Int) else none

/-! ## JSON values (`encoding/json`, scanner and decoder) -/

/-- A JSON value as the scanner of `encoding/json` delimits it; a number keeps its text. -/
inductive JVal where
  | null
  | bool (b : Bool)
  | num (raw : GoString)
  | str (s : GoString)
  | arr (items : List JVal)
  | obj (members : List (GoString × JVal))

/-- The byte is JSON white space (`isSpace`). -/
def isSpace (c : Nat) : Bool := c == 0x20 || c == 0x09 || c == 0x0D || c == 0x0A

/-- The input after its leading white space. -/
def skipSpace (inp : GoString) : GoString := inp.dropWhile isSpace

/-- The exponent of a number literal, when there is one. -/
def scanExp (acc inp : GoString) : Option (GoString × GoString) :=
  match inp with
  | e :: r1 =>
    if e = 0x65 ∨ e = 0x45 then
      match r1 with
      | sg :: r2 =>
        if sg = 0x2B ∨ sg = 0x2D then
          if (r2.span isDigit).1 = [] then none
          else some (acc ++ e :: sg :: (r2.span isDigit).1, (r2.span isDigit).2)
        else if (r1.span isDigit).1 = [] then none
        else some (acc ++ e :: (r1.span isDigit).1, (r1.span isDigit).2)
      | [] => none
    else some (acc, inp)
  | [] => some (acc, inp)

/-- The fraction of a number literal, when there is one, and then the exponent. -/
def scanFrac (acc inp : GoString) : Option (GoString × GoString) :=
  match inp with
  | c :: r1 =>
    if c = 0x2E then
      if (r1.span isDigit).1 = [] then none
      else scanExp (acc ++ 0x2E :: (r1.span isDigit).1) (r1.span isDigit).2
    else scanExp acc inp
  | [] => some (acc, inp)

/-- The integer part of a number literal (a single zero, or digits starting with a
non-zero one) and what follows it. -/
def scanInt (sign inp : GoString) : Option (GoString × GoString) :=
  match inp with
  | d :: r1 =>
    if d = 0x30 then scanFrac (sign ++ [d]) r1
    else if 0x31 ≤ d ∧ d ≤ 0x39 then
      scanFrac (sign ++ d :: (r1.span isDigit).1) (r1.span isDigit).2
    else none
  | [] => none

/-- A JSON number literal at the head of the input: its text and the rest. -/
def scanNumber (inp : GoString) : Option (GoString × GoString) :=
  match inp with
  | 0x2D :: r => scanInt [0x2D] r
  | _ => scanInt [] inp

/-- The elements of an array after its first one: each a comma and a value, up to the
closing bracket. -/
def parseElems (pv : GoString → Option (JVal × GoString)) :
    Nat → GoString → Option (List JVal × GoString)
  | 0, _ => none
  | f + 1, inp =>
    match skipSpace inp with
    | 0x5D :: r => some ([], r)
    | 0x2C :: r =>
      match pv r with
      | some (v, r1) => (parseElems pv f r1).map (fun p => (v :: p.1, p.2))
      | none => none
    | _ => none

/-- One member of an object: a string literal, a colon and a value. -/
def parseMember (pv : GoString → Option (JVal × GoString)) (inp : GoString) :
    Option ((GoString × JVal) × GoString) :=
  match parseString (skipSpace inp) with
  | some (k, r) =>
    match skipSpace r with
    | 0x3A :: r1 =>
      match pv r1 with
      | some (v, r2) => some ((k, v), r2)
      | none => none
    | _ => none
  | none => none

/-- The members of an object after its first one: each a comma and a member, up to the
closing brace. -/
def parseMembers (pv : GoString → Option (JVal × GoString)) :
    Nat → GoString → Option (List (GoString × JVal) × GoString)
  | 0, _ => none
  | f + 1, inp =>
    match skipSpace inp with
    | 0x7D :: r => some ([], r)
    | 0x2C :: r =>
      match parseMember pv r with
      | some (m, r1) => (parseMembers pv f r1).map (fun p => (m :: p.1, p.2))
      | none => none
    | _ => none

/-- One JSON value at the head of the input, after optional white space, and the rest of
the input.  The first argument bounds the depth of nesting. -/
def parseValue : Nat → GoString → Option (JVal × GoString)
  | 0, _ => none
  | f + 1, inp =>
    match skipSpace inp with
    | [] => none
    | c :: rest =>
      if c = 0x7B then
        match skipSpace rest with
        | 0x7D :: r => some (JVal.obj [], r)
        | _ =>
          match parseMember (parseValue f) rest with
          | some (m, r1) =>
            (parseMembers (parseValue f) (r1.length + 1) r1).map
              (fun p => (JVal.obj (m :: p.1), p.2))
          | none => none
      else if c = 0x5B then
        match skipSpace rest with
        | 0x5D :: r => some (JVal.arr [], r)
        | _ =>
          match parseValue f rest with
          | some (v, r1) =>
            (parseElems (parseValue f) (r1.length + 1) r1).map
              (fun p => (JVal.arr (v :: p.1), p.2))
          | none => none
      else if c = 0x22 then
        (parseString (c :: rest)).map (fun p => (JVal.str p.1, p.2))
      else if c = 0x2D ∨ isDigit c = true then
        (scanNumber (c :: rest)).map (fun p => (JVal.num p.1, p.2))
      else
        match c :: rest with
        | 0x74 :: 0x72 :: 0x75 :: 0x65 :: r => some (JVal.bool true, r)
        | 0x66 :: 0x61 :: 0x6C :: 0x73 :: 0x65 :: r => some (JVal.bool false, r)
        | 0x6E :: 0x75 :: 0x6C :: 0x6C :: r => some (JVal.null, r)
        | _ => none

/-- The whole input as one JSON value surrounded by optional white space (`checkValid`
and the scan of `Unmarshal`). -/
def parseJSON (data : GoString) : Option JVal :=
  match parseValue (data.length + 1) data with
  | some (v, rest) => if skipSpace rest = [] then some v else none
  | none => none

/-! ## The record and its JSON form -/

/-- The struct `Rating` of the chaincode. -/
structure Rating where
  Id : GoString
  Place : GoString
  Grade : Int
  Comment : GoString
  deriving DecidableEq, Repr

/-- A Go `error` value: a message built by `fmt.Errorf`, a message that embeds another
error through `%v`, an error returned by the ledger stub, or an error of `encoding/json`. -/
inductive GoError where
  | errorf (text : GoString)
  | wrap (pre : GoString) (cause : GoError)
  | host (text : GoString)
  | json
  deriving DecidableEq, Repr

deriving instance DecidableEq for Except

/-- The bytes `json.Marshal` writes for a `Rating`: the four fields in declaration order,
each under the name of its struct tag (`json:"Id"`, `json:"Place"`, `json:"Grade"`,
`json:"Comment"`). -/
def ratingJSON (r : Rating) : GoString :=
  0x7B :: (appendString (lit "Id") ++ 0x3A :: (appendString r.Id
    ++ 0x2C :: (appendString (lit "Place") ++ 0x3A :: (appendString r.Place
    ++ 0x2C :: (appendString (lit "Grade") ++ 0x3A :: (formatInt r.Grade
    ++ 0x2C :: (appendString (lit "Comment") ++ 0x3A :: (appendString r.Comment
    ++ [0x7D]))))))))

/-- The function `json.Marshal` on a `Rating`; it has no failing case for this struct. -/
def jsonMarshal (r : Rating) : Except GoError GoString := .ok (ratingJSON r)

/-- The fold of an ASCII letter to upper case (`foldName` on ASCII). -/
def foldByte (c : Nat) : Nat := if 0x61 ≤ c ∧ c ≤ 0x7A then c - 0x20 else c

/-- The match of an object key with a field name, ignoring the case of ASCII letters.
The four field names hold no `k` and no `s`, the only letters a non-ASCII rune folds to, so
a key with a non-ASCII byte matches none of them, as here. -/
def equalFold (key name : GoString) : Bool := key.map foldByte == name.map foldByte

/-- The store of one object member into the struct (`literalStore`): a string into a
string field, a number that `ParseInt` accepts into `Grade`, `null` into any field without
effect, a member of another name without effect; any other value is a type error. -/
def storeMember (r : Rating) (m : GoString × JVal) : Option Rating :=
  if equalFold m.1 (lit "Id") then
    match m.2 with
    | .str v => some { r with Id := v }
    | .null => some r
    | _ => none
  else if equalFold m.1 (lit "Place") then
    match m.2 with
    | .str v => some { r with Place := v }
    | .null => some r
    | _ => none
  else if equalFold m.1 (lit "Grade") then
    match m.2 with
    | .num raw => (parseInt raw).map (fun g => { r with Grade := g })
    | .null => some r
    | _ => none
  else if equalFold m.1 (lit "Comment") then
    match m.2 with
    | .str v => some { r with Comment := v }
    | .null => some r
    | _ => none
  else some r

/-- The members of an object stored one after the other, a later one over an earlier. -/
def storeMembers : List (GoString × JVal) → Rating → Option Rating
  | [], r => some r
  | m :: rest, r =>
    match storeMember r m with
    | some r1 => storeMembers rest r1
    | none => none

/-- The decoding of a JSON value into a zero `Rating`: an object fills the fields, `null`
leaves them zero, any other value is a type error. -/
def decodeRating (v : JVal) : Option Rating :=
  match v with
  | .null => some ⟨[], [], 0, []⟩
  | .obj ms => storeMembers ms ⟨[], [], 0, []⟩
  | _ => none

/-- The function `json.Unmarshal` into a `Rating`. -/
def jsonUnmarshal (data : GoString) : Except GoError Rating :=
  match parseJSON data with
  | none => .error .json
  | some v =>
    match decodeRating v with
    | none => .error .json
    | some r => .ok r

/-! ## The ledger stub -/

/-- The order of the ledger on keys: byte-wise lexicographic. -/
def keyLess : GoString → GoString → Bool
  | [], [] => false
  | [], _ :: _ => true
  | _ :: _, [] => false
  | a :: as, b :: bs => if a < b then true else if b < a then false else keyLess as bs

/-- The entry placed before the first entry of a greater key. -/
def insertKV (k v : GoString) : List (GoString × GoString) → List (GoString × GoString)
  | [] => [(k, v)]
  | p :: rest => if keyLess k p.1 then (k, v) :: p :: rest else p :: insertKV k v rest

/-- The world state with the key removed. -/
def deleteKV (k : GoString) (l : List (GoString × GoString)) : List (GoString × GoString) :=
  l.filter (fun p => p.1 ≠ k)

/-- The world state with the value written under the key, in place of any former one. -/
def putKV (k v : GoString) (l : List (GoString × GoString)) : List (GoString × GoString) :=
  insertKV k v (deleteKV k l)

/-- The ledger stub of a transaction context (`ctx.GetStub()`): the world state, the
error the host answers to each call when it fails, and the event set last. -/
structure Stub where
  state : List (GoString × GoString)
  getErr : GoString → Option GoError
  putErr : GoString → GoString → Option GoError
  delErr : GoString → Option GoError
  rangeErr : Option GoError
  nextErr : Nat → Option GoError
  event : Option (GoString × GoString)

/-- The call `GetState(key)`: the value under the key, `none` (Go `nil`) when there is
none. -/
def Stub.GetState (s : Stub) (key : GoString) : Except GoError (Option GoString) :=
  match s.getErr key with
  | some e => .error e
  | none => .ok (s.state.lookup key)

/-- The call `PutState(key, value)`. -/
def Stub.PutState (s : Stub) (key value : GoString) : Except GoError Unit × Stub :=
  match s.putErr key value with
  | some e => (.error e, s)
  | none => (.ok (), { s with state := putKV key value s.state })

/-- The call `DelState(key)`. -/
def Stub.DelState (s : Stub) (key : GoString) : Except GoError Unit × Stub :=
  match s.delErr key with
  | some e => (.error e, s)
  | none => (.ok (), { s with state := deleteKV key s.state })

/-- The call `SetEvent(name, payload)`. -/
def Stub.SetEvent (s : Stub) (name payload : GoString) : Stub :=
  { s with event := some (name, payload) }

/-- The answers of an iterator to its successive `Next` calls, from the given index. -/
def iterResults (nextErr : Nat → Option GoError) :
    Nat → List (GoString × GoString) → List (Except GoError (GoString × GoString))
  | _, [] => []
  | i, kv :: rest =>
    (match nextErr i with
      | some e => .error e
      | none => .ok kv) :: iterResults nextErr (i + 1) rest

/-- The call `GetStateByRange("", "")`: an iterator over the whole world state in key
order, given as the answers of its `Next` calls (`HasNext` holds while one is left). -/
def Stub.GetStateByRange (s : Stub) :
    Except GoError (List (Except GoError (GoString × GoString))) :=
  match s.rangeErr with
  | some e => .error e
  | none => .ok (iterResults s.nextErr 0 s.state)

/-! ## The contract -/

/-- The loop of `InitLedger` over its seed records. -/
def initLedgerLoop : List Rating → Stub → Except GoError Unit × Stub
  | [], s => (.ok (), s)
  | rating :: rest, s =>
    match jsonMarshal rating with
    | .error e => (.error e, s)
    | .ok ratingJSON =>
      match s.PutState rating.Id ratingJSON with
      | (.error e, s1) => (.error (.wrap (lit "failed to put to world state: ") e), s1)
      | (.ok _, s1) => initLedgerLoop rest s1

/-- The transaction `InitLedger`: the seed list is empty. -/
def InitLedger (s : Stub) : Except GoError Unit × Stub := initLedgerLoop [] s

/-- The transaction `RatingExists`. -/
def RatingExists (s : Stub) (id : GoString) : Except GoError Bool :=
  match s.GetState id with
  | .error e => .error (.wrap (lit "failed to read from world state: ") e)
  | .ok ratingJSON => .ok ratingJSON.isSome

/-- The transaction `CreateRating`. -/
def CreateRating (s : Stub) (id place : GoString) (grade : Int) (comment : GoString) :
    Except GoError Unit × Stub :=
  match RatingExists s id with
  | .error e => (.error (.wrap (lit "error checking rating existence: ") e), s)
  | .ok true => (.error (.errorf (lit "the rating " ++ id ++ lit " already exists")), s)
  | .ok false =>
    match jsonMarshal ⟨id, place, grade, comment⟩ with
    | .error e => (.error (.wrap (lit "error marshalling rating JSON: ") e), s)
    | .ok ratingJSON =>
      match s.PutState id ratingJSON with
      | (.error e, s1) => (.error (.wrap (lit "error putting rating state: ") e), s1)
      | (.ok _, s1) =>
        (.ok (), s1.SetEvent (lit "CreateRatingEvent")
          (lit "Rating " ++ id ++ lit " created successfully"))

/-- The loop of `GetAllRatings` over the iterator. -/
def getAllLoop : List (Except GoError (GoString × GoString)) → List Rating →
    Except GoError (List Rating)
  | [], ratings => .ok ratings
  | .error e :: _, _ => .error e
  | .ok queryResponse :: rest, ratings =>
    match jsonUnmarshal queryResponse.2 with
    | .error e => .error e
    | .ok rating => getAllLoop rest (ratings ++ [rating])

/-- The transaction `GetAllRatings`. -/
def GetAllRatings (s : Stub) : Except GoError (List Rating) :=
  match s.GetStateByRange with
  | .error e => .error e
  | .ok resultsIterator => getAllLoop resultsIterator []

/-- A Go `float64` as far as the contract uses it: the conversion of an `int`, the
division, the comparison `>` and the rendering of the verb `%.2f`. -/
structure Float64Ops (F : Type) where
  ofInt : Int → F
  div : F → F → F
  gt : F → F → Bool
  format2 : F → GoString

/-- The loop of `CalculateAverageGradeForPlace`: the pair `(totalGrade, count)`.  The sum of
the grades wraps as a Go `int` does; the count is kept exact, since it is bounded by the
number of records scanned. -/
def averageLoop (place : GoString) :
    List (Except GoError (GoString × GoString)) → Int × Int → Except GoError (Int × Int)
  | [], acc => .ok acc
  | .error e :: _, _ => .error e
  | .ok queryResponse :: rest, acc =>
    match jsonUnmarshal queryResponse.2 with
    | .error e => .error e
    | .ok rating =>
      if rating.Place = place then
        averageLoop place rest (wrap64 (acc.1 + rating.Grade), acc.2 + 1)
      else averageLoop place rest acc

/-- The transaction `CalculateAverageGradeForPlace`. -/
def CalculateAverageGradeForPlace {F : Type} (ops : Float64Ops F) (s : Stub)
    (place : GoString) : Except GoError F :=
  match s.GetStateByRange with
  | .error e => .error e
  | .ok resultsIterator =>
    match averageLoop place resultsIterator (0, 0) with
    | .error e => .error e
    | .ok (totalGrade, count) =>
      if count = 0 then .error (.errorf (lit "no ratings found for place " ++ place))
      else .ok (ops.div (ops.ofInt totalGrade) (ops.ofInt count))

/-- The loop of `GetRatingsForPlace`. -/
def ratingsForPlaceLoop (place : GoString) :
    List (Except GoError (GoString × GoString)) → List Rating → Except GoError (List Rating)
  | [], acc => .ok acc
  | .error e :: _, _ => .error e
  | .ok queryResponse :: rest, acc =>
    match jsonUnmarshal queryResponse.2 with
    | .error e => .error e
    | .ok rating =>
      if rating.Place = place then ratingsForPlaceLoop place rest (acc ++ [rating])
      else ratingsForPlaceLoop place rest acc

/-- The transaction `GetRatingsForPlace`. -/
def GetRatingsForPlace (s : Stub) (place : GoString) : Except GoError (List Rating) :=
  match s.GetStateByRange with
  | .error e => .error e
  | .ok resultsIterator =>
    match ratingsForPlaceLoop place resultsIterator [] with
    | .error e => .error e
    | .ok ratingsForPlace =>
      if ratingsForPlace.length = 0 then
        .error (.errorf (lit "no ratings found for place " ++ place))
      else .ok ratingsForPlace

/-- A Go map from places to `struct{TotalGrade, Count}`: its entries, one per key. -/
abbrev PlaceDataMap := List (GoString × (Int × Int))

/-- The read `m[k]` with its `exists` flag. -/
def PlaceDataMap.get (m : PlaceDataMap) (k : GoString) : Option (Int × Int) := m.lookup k

/-- The assignment `m[k] = v`. -/
def PlaceDataMap.set : PlaceDataMap → GoString → Int × Int → PlaceDataMap
  | [], k, v => [(k, v)]
  | p :: rest, k, v => if p.1 = k then (k, v) :: rest else p :: PlaceDataMap.set rest k v

/-- The first loop of `GetRating`: total grade and count of every place; the total wraps as
a Go `int` does, the count is kept exact. -/
def placeData (allRatings : List Rating) : PlaceDataMap :=
  allRatings.foldl (fun m rating =>
    let data := (m.get rating.Place).getD (0, 0)
    m.set rating.Place (wrap64 (data.1 + rating.Grade), data.2 + 1)) []

/-- The average grade of a place of the map, as `GetRating` computes it in three places:
`float64(TotalGrade) / float64(Count)`, an absent key reading as the zero struct. -/
def placeAverage {F : Type} (ops : Float64Ops F) (m : PlaceDataMap) (place : GoString) : F :=
  ops.div (ops.ofInt ((m.get place).getD (0, 0)).1) (ops.ofInt ((m.get place).getD (0, 0)).2)

/-- The header line of the report. -/
def reportHeader : GoString := lit "Average Grade\t\tPlace\n"

/-- One line of the report: `fmt.Sprintf("%.2f\t\t%s\n", averageGrade, place)`. -/
def reportLine {F : Type} (ops : Float64Ops F) (m : PlaceDataMap) (place : GoString) :
    GoString :=
  ops.format2 (placeAverage ops m place) ++ (lit "\t\t" ++ (place ++ lit "\n"))

/-- The transaction `GetRating`.  The order in which `range` visits the keys of the map and
the permutation `sort.Slice` produces are left to the Go runtime: `mapRange` gives the
visiting order of a map's keys and `sortSlice` the sorted slice for a `less` function. -/
def GetRating {F : Type} (ops : Float64Ops F)
    (mapRange : List GoString → List GoString)
    (sortSlice : (GoString → GoString → Bool) → List GoString → List GoString)
    (s : Stub) : Except GoError GoString :=
  match GetAllRatings s with
  | .error e => .error (.wrap (lit "error getting all ratings: ") e)
  | .ok allRatings =>
    let placeDataMap := placeData allRatings
    let sortedPlaces := sortSlice
      (fun placeI placeJ =>
        ops.gt (placeAverage ops placeDataMap placeI) (placeAverage ops placeDataMap placeJ))
      (mapRange (placeDataMap.map Prod.fst))
    .ok (reportHeader ++ sortedPlaces.flatMap (reportLine ops placeDataMap))

/-- The transaction `AreRatingsEmpty`. -/
def AreRatingsEmpty (s : Stub) : Except GoError Bool :=
  match s.GetStateByRange with
  | .error e => .error e
  | .ok resultsIterator => .ok resultsIterator.isEmpty

/-- The transaction `ReadRating`. -/
def ReadRating (s : Stub) (id : GoString) : Except GoError Rating :=
  match s.GetState id with
  | .error e => .error (.wrap (lit "failed to read from world state: ") e)
  | .ok none => .error (.errorf (lit "the rating " ++ id ++ lit " does not exist"))
  | .ok (some ratingJSON) =>
    match jsonUnmarshal ratingJSON with
    | .error e => .error e
    | .ok rating => .ok rating

/-- The transaction `UpdateRating`. -/
def UpdateRating (s : Stub) (id place : GoString) (grade : Int) (comment : GoString) :
    Except GoError Unit × Stub :=
  match RatingExists s id with
  | .error e => (.error e, s)
  | .ok false => (.error (.errorf (lit "the rating " ++ id ++ lit " does not exist")), s)
  | .ok true =>
    match jsonMarshal ⟨id, place, grade, comment⟩ with
    | .error e => (.error e, s)
    | .ok ratingJSON => s.PutState id ratingJSON

/-- The transaction `DeleteRating`. -/
def DeleteRating (s : Stub) (id : GoString) : Except GoError Unit × Stub :=
  match RatingExists s id with
  | .error e => (.error e, s)
  | .ok false => (.error (.errorf (lit "the rating " ++ id ++ lit " does not exist")), s)
  | .ok true => s.DelState id

/-! ## Ledgers and runs used by the statements -/

/-- A ledger stub over the given world state whose calls all succeed. -/
def ledgerOf (state : List (GoString × GoString)) : Stub :=
  ⟨state, fun _ => none, fun _ _ => none, fun _ => none, none, fun _ => none, none⟩

/-- The empty ledger, every call succeeding. -/
def emptyLedger : Stub := ledgerOf []

/-- The states of the ledger that transactions can produce from an empty world state:
any sequence of `InitLedger`, `CreateRating`, `UpdateRating` and `DeleteRating` calls,
whether they succeed or fail, with grades that are Go `int` values. -/
inductive Reachable : Stub → Prop where
  | empty (s : Stub) : s.state = [] → Reachable s
  | initLedger (s : Stub) : Reachable s → Reachable (InitLedger s).2
  | create (s : Stub) (id place : GoString) (grade : Int) (comment : GoString) :
      Reachable s → isInt64 grade → Reachable (CreateRating s id place grade comment).2
  | update (s : Stub) (id place : GoString) (grade : Int) (comment : GoString) :
      Reachable s → isInt64 grade → Reachable (UpdateRating s id place grade comment).2
  | delete (s : Stub) (id : GoString) : Reachable s → Reachable (DeleteRating s id).2

/-- A world state holding one record under the key `r1`. -/
def oneRating : List (GoString × GoString) :=
  [(lit "r1", ratingJSON ⟨lit "r1", lit "A", 5, lit "ok"⟩)]

/-- A ledger holding one record, whose `PutState` fails. -/
def putFailLedger : Stub :=
  { ledgerOf oneRating with putErr := fun _ _ => some (.host (lit "unavailable")) }

/-- A ledger holding one record, whose `DelState` fails. -/
def delFailLedger : Stub :=
  { ledgerOf oneRating with delErr := fun _ => some (.host (lit "unavailable")) }

/-- The sum of the grades of the records of a place, as a Go `int` holds it: reduced to
64 bits. -/
def gradeTotal (rs : List Rating) (place : GoString) : Int :=
  wrap64 (((rs.filter (fun r => r.Place = place)).map (fun r => r.Grade)).sum)

/-- The number of records of a place. -/
def placeCount (rs : List Rating) (place : GoString) : Int :=
  ((rs.filter (fun r => r.Place = place)).length : Int)

/-- The average grade of a place over a list of records: the quotient of `gradeTotal` by
`placeCount`, both converted to `float64`. -/
def averageOf {F : Type} (ops : Float64Ops F) (rs : List Rating) (place : GoString) : F :=
  ops.div (ops.ofInt (gradeTotal rs place)) (ops.ofInt (placeCount rs place))

/-- The contract of a `less` function: a strict weak ordering. -/
def StrictWeak {α : Type} (less : α → α → Bool) : Prop :=
  (∀ a, less a a = false) ∧
  (∀ a b c, less a b = true → less b c = true → less a c = true) ∧
  (∀ a b c, less a b = false → less b c = false → less a c = false)

/-- The contract of `sort.Slice`: the result is a permutation of the slice, and for a
strict weak ordering no element is less than one placed before it. -/
def SortContract (sortSlice : (GoString → GoString → Bool) → List GoString → List GoString) :
    Prop :=
  ∀ less l, (sortSlice less l).Perm l ∧
    (StrictWeak less → (sortSlice less l).Pairwise (fun a b => less b a = false))

/-- The contract of `range` over a map: every key is visited once, in some order. -/
def RangeContract (mapRange : List GoString → List GoString) : Prop :=
  ∀ l, (mapRange l).Perm l

/-- The verb `%.2f` on an exact quotient: two decimals, rounded half to even. -/
def formatFixed2 (q : ℚ) : GoString :=
  let k := q.num.natAbs * 100 / q.den
  let r := q.num.natAbs * 100 % q.den
  let n := if q.den < 2 * r ∨ (2 * r = q.den ∧ k % 2 = 1) then k + 1 else k
  (if q < 0 then [0x2D] else []) ++ (natDigitsAux (n / 100 + 1) (n / 100)
    ++ [0x2E, 0x30 + n % 100 / 10, 0x30 + n % 10])

/-- The operations of `float64` read on exact quotients; they agree with `float64` wherever
the conversions and the division are exact. -/
def ratOps : Float64Ops ℚ :=
  ⟨fun n => (n : ℚ), fun a b => a / b, fun a b => decide (b < a), formatFixed2⟩

/-- A sorting function meeting `SortContract`: insertion sort. -/
def insertionSortSlice (less : GoString → GoString → Bool) (l : List GoString) :
    List GoString :=
  l.insertionSort (fun a b => less b a = false)

/-- The ledger of the ratings `[(A, 4), (A, 2), (B, 5)]`. -/
def abLedger : Stub :=
  ledgerOf [(lit "r1", ratingJSON ⟨lit "r1", lit "A", 4, lit ""⟩),
    (lit "r2", ratingJSON ⟨lit "r2", lit "A", 2, lit ""⟩),
    (lit "r3", ratingJSON ⟨lit "r3", lit "B", 5, lit ""⟩)]

/-- A ledger of two ratings of the place `A` whose grades add up beyond the range of a Go
`int`. -/
def overflowLedger : Stub :=
  ledgerOf [(lit "r1", ratingJSON ⟨lit "r1", lit "A", 4611686018427387904, lit ""⟩),
    (lit "r2", ratingJSON ⟨lit "r2", lit "A", 4611686018427387904, lit ""⟩)]

/-- A ledger whose places have the averages `A: 4.5`, `B: 3.0`, `C: 4.5`. -/
def abcLedger : Stub :=
  ledgerOf [(lit "r1", ratingJSON ⟨lit "r1", lit "A", 4, lit ""⟩),
    (lit "r2", ratingJSON ⟨lit "r2", lit "A", 5, lit ""⟩),
    (lit "r3", ratingJSON ⟨lit "r3", lit "B", 3, lit ""⟩),
    (lit "r4", ratingJSON ⟨lit "r4", lit "C", 5, lit ""⟩),
    (lit "r5", ratingJSON ⟨lit "r5", lit "C", 4, lit ""⟩)]

/-- The records of `abLedger`. -/
def abRatings : List Rating :=
  [⟨lit "r1", lit "A", 4, lit ""⟩, ⟨lit "r2", lit "A", 2, lit ""⟩,
    ⟨lit "r3", lit "B", 5, lit ""⟩]

/-- The names of the members of a JSON object, in the order of the text; `none` when the
bytes are no JSON object. -/
def objectKeys (data : GoString) : Option (List GoString) :=
  match parseJSON data with
  | some (.obj ms) => some (ms.map Prod.fst)
  | _ => none

/-- The ledger after two `CreateRating` calls on the empty ledger whose ids are the single
bytes `0xFE` and `0xFF`, neither of them valid UTF-8. -/
def twoBadIdsLedger : Stub :=
  (CreateRating (CreateRating emptyLedger [0xFE] (lit "A") 1 []).2 [0xFF] (lit "A") 2 []).2

/-- The records of `abcLedger`. -/
def abcRatings : List Rating :=
  [⟨lit "r1", lit "A", 4, lit ""⟩, ⟨lit "r2", lit "A", 5, lit ""⟩,
    ⟨lit "r3", lit "B", 3, lit ""⟩, ⟨lit "r4", lit "C", 5, lit ""⟩,
    ⟨lit "r5", lit "C", 4, lit ""⟩]

/-- The records of `overflowLedger`. -/
def overflowRatings : List Rating :=
  [⟨lit "r1", lit "A", 4611686018427387904, lit ""⟩,
    ⟨lit "r2", lit "A", 4611686018427387904, lit ""⟩]

/-- A ledger over the given world state whose `GetStateByRange` fails. -/
def rangeFailLedger (state : List (GoString × GoString)) : Stub :=
  { ledgerOf state with rangeErr := some (.host (lit "unavailable")) }

/-! ## Lemmas on UTF-8 -/

theorem decodeRune_width_pos (b : Nat) (rest : GoString) :
    1 ≤ (decodeRune (b :: rest)).2 := by
  rcases rest with _ | ⟨b1, _ | ⟨b2, _ | ⟨b3, rest⟩⟩⟩ <;>
    simp only [decodeRune] <;> split_ifs <;> simp

theorem decodeRune_width_le (s : GoString) : (decodeRune s).2 ≤ s.length := by
  rcases s with _ | ⟨b, _ | ⟨b1, _ | ⟨b2, _ | ⟨b3, rest⟩⟩⟩⟩ <;>
    simp only [decodeRune] <;> (try split_ifs) <;> simp

theorem encodeRune_two (p0 b1 : Nat) (h0 : 0xC2 ≤ p0) (h0' : p0 < 0xE0)
    (h1 : 0x80 ≤ b1) (h1' : b1 ≤ 0xBF) :
    encodeRune ((p0 - 0xC0) * 64 + (b1 - 0x80)) = [p0, b1] := by
  unfold encodeRune
  rw [if_neg (by omega), if_pos (by omega)]
  have e1 : 0xC0 + ((p0 - 0xC0) * 64 + (b1 - 0x80)) / 64 = p0 := by omega
  have e2 : 0x80 + ((p0 - 0xC0) * 64 + (b1 - 0x80)) % 64 = b1 := by omega
  rw [e1, e2]

theorem encodeRune_three (p0 b1 b2 : Nat) (h0 : 0xE0 ≤ p0) (h0' : p0 < 0xF0)
    (h1 : acceptLo p0 ≤ b1) (h1' : b1 ≤ acceptHi p0) (h2 : 0x80 ≤ b2) (h2' : b2 ≤ 0xBF) :
    encodeRune ((p0 - 0xE0) * 4096 + (b1 - 0x80) * 64 + (b2 - 0x80)) = [p0, b1, b2] := by
  have hlo : 0x80 ≤ b1 ∧ (p0 = 0xE0 → 0xA0 ≤ b1) := by
    unfold acceptLo at h1; split_ifs at h1 <;> omega
  have hhi : b1 ≤ 0xBF ∧ (p0 = 0xED → b1 ≤ 0x9F) := by
    unfold acceptHi at h1'; split_ifs at h1' <;> omega
  unfold encodeRune
  rw [if_neg (by omega), if_neg (by omega), if_neg (by omega), if_pos (by omega)]
  have e1 : 0xE0 + ((p0 - 0xE0) * 4096 + (b1 - 0x80) * 64 + (b2 - 0x80)) / 4096 = p0 := by omega
  have e2 : 0x80 + ((p0 - 0xE0) * 4096 + (b1 - 0x80) * 64 + (b2 - 0x80)) / 64 % 64 = b1 := by
    omega
  have e3 : 0x80 + ((p0 - 0xE0) * 4096 + (b1 - 0x80) * 64 + (b2 - 0x80)) % 64 = b2 := by omega
  rw [e1, e2, e3]

theorem encodeRune_four (p0 b1 b2 b3 : Nat) (h0 : 0xF0 ≤ p0) (h0' : p0 < 0xF5)
    (h1 : acceptLo p0 ≤ b1) (h1' : b1 ≤ acceptHi p0) (h2 : 0x80 ≤ b2) (h2' : b2 ≤ 0xBF)
    (h3 : 0x80 ≤ b3) (h3' : b3 ≤ 0xBF) :
    encodeRune ((p0 - 0xF0) * 262144 + (b1 - 0x80) * 4096 + (b2 - 0x80) * 64 + (b3 - 0x80))
      = [p0, b1, b2, b3] := by
  have hlo : 0x80 ≤ b1 ∧ (p0 = 0xF0 → 0x90 ≤ b1) := by
    unfold acceptLo at h1; split_ifs at h1 <;> omega
  have hhi : b1 ≤ 0xBF ∧ (p0 = 0xF4 → b1 ≤ 0x8F) := by
    unfold acceptHi at h1'; split_ifs at h1' <;> omega
  unfold encodeRune
  rw [if_neg (by omega), if_neg (by omega), if_neg (by omega), if_neg (by omega)]
  have e1 : 0xF0 + ((p0 - 0xF0) * 262144 + (b1 - 0x80) * 4096 + (b2 - 0x80) * 64
      + (b3 - 0x80)) / 262144 = p0 := by omega
  have e2 : 0x80 + ((p0 - 0xF0) * 262144 + (b1 - 0x80) * 4096 + (b2 - 0x80) * 64
      + (b3 - 0x80)) / 4096 % 64 = b1 := by omega
  have e3 : 0x80 + ((p0 - 0xF0) * 262144 + (b1 - 0x80) * 4096 + (b2 - 0x80) * 64
      + (b3 - 0x80)) / 64 % 64 = b2 := by omega
  have e4 : 0x80 + ((p0 - 0xF0) * 262144 + (b1 - 0x80) * 4096 + (b2 - 0x80) * 64
      + (b3 - 0x80)) % 64 = b3 := by omega
  rw [e1, e2, e3, e4]
theorem decodeRune_two (p0 b1 : Nat) (tl : GoString) (h0 : 0xC2 ≤ p0) (h0' : p0 < 0xE0)
    (h1 : 0x80 ≤ b1) (h1' : b1 ≤ 0xBF) :
    decodeRune (p0 :: b1 :: tl) = ((p0 - 0xC0) * 64 + (b1 - 0x80), 2) := by
  simp only [decodeRune]
  rw [if_neg (by omega), if_neg (by omega), if_pos (by omega), if_pos ⟨h1, h1'⟩]

theorem decodeRune_three (p0 b1 b2 : Nat) (tl : GoString) (h0 : 0xE0 ≤ p0) (h0' : p0 < 0xF0)
    (h1 : acceptLo p0 ≤ b1) (h1' : b1 ≤ acceptHi p0) (h2 : 0x80 ≤ b2) (h2' : b2 ≤ 0xBF) :
    decodeRune (p0 :: b1 :: b2 :: tl)
      = ((p0 - 0xE0) * 4096 + (b1 - 0x80) * 64 + (b2 - 0x80), 3) := by
  simp only [decodeRune]
  rw [if_neg (by omega), if_neg (by omega), if_neg (by omega), if_pos (by omega),
    if_pos ⟨h1, h1', h2, h2'⟩]

theorem decodeRune_four (p0 b1 b2 b3 : Nat) (tl : GoString) (h0 : 0xF0 ≤ p0)
    (h0' : p0 < 0xF5) (h1 : acceptLo p0 ≤ b1) (h1' : b1 ≤ acceptHi p0)
    (h2 : 0x80 ≤ b2) (h2' : b2 ≤ 0xBF) (h3 : 0x80 ≤ b3) (h3' : b3 ≤ 0xBF) :
    decodeRune (p0 :: b1 :: b2 :: b3 :: tl)
      = ((p0 - 0xF0) * 262144 + (b1 - 0x80) * 4096 + (b2 - 0x80) * 64 + (b3 - 0x80), 4) := by
  simp only [decodeRune]
  rw [if_neg (by omega), if_neg (by omega), if_neg (by omega), if_neg (by omega),
    if_pos (by omega), if_pos ⟨h1, h1', h2, h2', h3, h3'⟩]

theorem decodeRune_cases (b : Nat) (rest : GoString) (hb : 0x80 ≤ b) :
    decodeRune (b :: rest) = (RuneError, 1) ∨
    (∃ b1 tl, rest = b1 :: tl ∧ 0xC2 ≤ b ∧ b < 0xE0 ∧ 0x80 ≤ b1 ∧ b1 ≤ 0xBF) ∨
    (∃ b1 b2 tl, rest = b1 :: b2 :: tl ∧ 0xE0 ≤ b ∧ b < 0xF0 ∧
      acceptLo b ≤ b1 ∧ b1 ≤ acceptHi b ∧ 0x80 ≤ b2 ∧ b2 ≤ 0xBF) ∨
    (∃ b1 b2 b3 tl, rest = b1 :: b2 :: b3 :: tl ∧ 0xF0 ≤ b ∧ b < 0xF5 ∧
      acceptLo b ≤ b1 ∧ b1 ≤ acceptHi b ∧ 0x80 ≤ b2 ∧ b2 ≤ 0xBF ∧ 0x80 ≤ b3 ∧ b3 ≤ 0xBF) := by
  by_cases c1 : b < 0xC2
  · left; simp only [decodeRune]; rw [if_neg (by omega), if_pos c1]
  by_cases c2 : b < 0xE0
  · rcases rest with _ | ⟨b1, tl⟩
    · left; simp only [decodeRune]; rw [if_neg (by omega), if_neg c1, if_pos c2]
    · by_cases c : 0x80 ≤ b1 ∧ b1 ≤ 0xBF
      · right; left; exact ⟨b1, tl, rfl, by omega, c2, c.1, c.2⟩
      · left; simp only [decodeRune]
        rw [if_neg (by omega), if_neg c1, if_pos c2, if_neg c]
  by_cases c3 : b < 0xF0
  · rcases rest with _ | ⟨b1, _ | ⟨b2, tl⟩⟩
    · left; simp only [decodeRune]; rw [if_neg (by omega), if_neg c1, if_neg c2, if_pos c3]
    · left; simp only [decodeRune]; rw [if_neg (by omega), if_neg c1, if_neg c2, if_pos c3]
    · by_cases c : acceptLo b ≤ b1 ∧ b1 ≤ acceptHi b ∧ 0x80 ≤ b2 ∧ b2 ≤ 0xBF
      · right; right; left
        exact ⟨b1, b2, tl, rfl, by omega, c3, c.1, c.2.1, c.2.2.1, c.2.2.2⟩
      · left; simp only [decodeRune]
        rw [if_neg (by omega), if_neg c1, if_neg c2, if_pos c3, if_neg c]
  by_cases c4 : b < 0xF5
  · rcases rest with _ | ⟨b1, _ | ⟨b2, _ | ⟨b3, tl⟩⟩⟩
    · left; simp only [decodeRune]
      rw [if_neg (by omega), if_neg c1, if_neg c2, if_neg c3, if_pos c4]
    · left; simp only [decodeRune]
      rw [if_neg (by omega), if_neg c1, if_neg c2, if_neg c3, if_pos c4]
    · left; simp only [decodeRune]
      rw [if_neg (by omega), if_neg c1, if_neg c2, if_neg c3, if_pos c4]
    · by_cases c : acceptLo b ≤ b1 ∧ b1 ≤ acceptHi b ∧ 0x80 ≤ b2 ∧ b2 ≤ 0xBF
          ∧ 0x80 ≤ b3 ∧ b3 ≤ 0xBF
      · right; right; right
        exact ⟨b1, b2, b3, tl, rfl, by omega, c4, c.1, c.2.1, c.2.2.1, c.2.2.2.1,
          c.2.2.2.2.1, c.2.2.2.2.2⟩
      · left; simp only [decodeRune]
        rw [if_neg (by omega), if_neg c1, if_neg c2, if_neg c3, if_pos c4, if_neg c]
  · left; simp only [decodeRune]
    rw [if_neg (by omega), if_neg c1, if_neg c2, if_neg c3, if_neg c4]

theorem hexVal_hexDigit (n : Nat) (h : n < 16) : hexVal (hexDigit n) = some n := by
  interval_cases n <;> decide

theorem unquoteAux_escapeByte (b : Nat) (hb : b < 0x80) (f : Nat) (tail : GoString) :
    unquoteAux (f + 1) (escapeByte b ++ tail)
      = (unquoteAux f tail).map (fun r => (b :: r.1, r.2)) := by
  unfold escapeByte
  split_ifs with h1 h2 h3 h4 h5 h6 h7
  · rcases h1 with rfl | rfl <;> simp [unquoteAux, simpleEscape]
  · subst h2; simp [unquoteAux, simpleEscape]
  · subst h3; simp [unquoteAux, simpleEscape]
  · subst h4; simp [unquoteAux, simpleEscape]
  · subst h5; simp [unquoteAux, simpleEscape]
  · subst h6; simp [unquoteAux, simpleEscape]
  · have e1 : hexVal (hexDigit (b / 16)) = some (b / 16) := hexVal_hexDigit _ (by omega)
    have e2 : hexVal (hexDigit (b % 16)) = some (b % 16) := hexVal_hexDigit _ (by omega)
    have e0 : hexVal 0x30 = some 0 := by decide
    have e : hex4 0x30 0x30 (hexDigit (b / 16)) (hexDigit (b % 16)) = some b := by
      simp only [hex4, e0, e1, e2]; congr 1; omega
    have enc : encodeRune b = [b] := by unfold encodeRune; rw [if_pos hb]
    show unquoteAux (f + 1) (0x5C :: 0x75 :: 0x30 :: 0x30 :: hexDigit (b / 16)
      :: hexDigit (b % 16) :: tail) = _
    simp only [unquoteAux, e, enc]
    have hs : ¬ (55296 ≤ b ∧ b < 57344) := by omega
    simp [hs]
  · show unquoteAux (f + 1) (b :: tail) = _
    simp only [unquoteAux]
    rw [if_neg (by omega), if_neg (by omega), if_neg (by omega), if_pos hb]

theorem unquoteAux_uescape (h1 h2 h3 h4 rr f : Nat) (tail : GoString)
    (hx : hex4 h1 h2 h3 h4 = some rr) (hs : ¬ (0xD800 ≤ rr ∧ rr < 0xE000)) :
    unquoteAux (f + 1) (0x5C :: 0x75 :: h1 :: h2 :: h3 :: h4 :: tail)
      = (unquoteAux f tail).map (fun x => (encodeRune rr ++ x.1, x.2)) := by
  simp only [unquoteAux, hx]
  simp [hs]

theorem unquoteAux_verbatim (b r f : Nat) (bs tail : GoString) (hb : 0x80 ≤ b)
    (hdec : decodeRune (b :: (bs ++ tail)) = (r, bs.length + 1))
    (henc : encodeRune r = b :: bs) :
    unquoteAux (f + 1) (b :: bs ++ tail)
      = (unquoteAux f tail).map (fun x => (b :: bs ++ x.1, x.2)) := by
  show unquoteAux (f + 1) (b :: (bs ++ tail)) = _
  simp only [unquoteAux]
  rw [if_neg (by omega), if_neg (by omega), if_neg (by omega), if_neg (by omega), hdec, henc]
  simp

theorem unquoteAux_escapeRune (b f : Nat) (rest tail : GoString) :
    unquoteAux (f + 1)
        (escapeRune ((decodeRune (b :: rest)).1, (b :: rest).take (decodeRune (b :: rest)).2)
          ++ tail)
      = (unquoteAux f tail).map (fun x =>
          ((if isBadRune ((decodeRune (b :: rest)).1,
                (b :: rest).take (decodeRune (b :: rest)).2) = true
            then [0xEF, 0xBF, 0xBD]
            else (b :: rest).take (decodeRune (b :: rest)).2) ++ x.1, x.2)) := by
  by_cases hb : b < 0x80
  · have hd : decodeRune (b :: rest) = (b, 1) := by
      simp only [decodeRune]; rw [if_pos hb]
    have hbad : isBadRune (b, [b]) = false := by
      simp only [isBadRune, RuneError]
      have : (b == 65533) = false := by simp; omega
      simp [this]
    simp only [hd, List.take_succ_cons, List.take_zero, hbad]
    have he : escapeRune (b, [b]) = escapeByte b := by
      simp only [escapeRune]; rw [if_pos hb]
    rw [he, unquoteAux_escapeByte b hb]
    simp
  · have hb' : 0x80 ≤ b := by omega
    rcases decodeRune_cases b rest hb' with hd | ⟨b1, tl, rfl, c1, c2, c3, c4⟩ |
      ⟨b1, b2, tl, rfl, c1, c2, c3, c4, c5, c6⟩ |
      ⟨b1, b2, b3, tl, rfl, c1, c2, c3, c4, c5, c6, c7, c8⟩
    · have hbad : isBadRune (RuneError, [b]) = true := by simp [isBadRune]
      simp only [hd, List.take_succ_cons, List.take_zero, hbad]
      have he : escapeRune (RuneError, [b]) = [0x5C, 0x75, 0x66, 0x66, 0x66, 0x64] := by
        simp only [escapeRune]; rw [if_neg hb, if_pos hbad]
      rw [he]
      have := unquoteAux_uescape 0x66 0x66 0x66 0x64 0xFFFD f tail (by decide) (by decide)
      simpa [encodeRune] using this
    · have hd := decodeRune_two b b1 tl c1 c2 c3 c4
      have henc := encodeRune_two b b1 c1 c2 c3 c4
      have hbad : isBadRune ((b - 0xC0) * 64 + (b1 - 0x80), [b, b1]) = false := by
        simp [isBadRune]
      simp only [hd, List.take_succ_cons, List.take_zero, hbad]
      have he : escapeRune ((b - 0xC0) * 64 + (b1 - 0x80), [b, b1]) = [b, b1] := by
        simp only [escapeRune]
        rw [if_neg hb, hbad, if_neg (by simp), if_neg (by omega)]
      rw [he]
      have := unquoteAux_verbatim b _ f [b1] tail hb' (decodeRune_two b b1 tail c1 c2 c3 c4) henc
      simpa using this
    · have hd := decodeRune_three b b1 b2 tl c1 c2 c3 c4 c5 c6
      have henc := encodeRune_three b b1 b2 c1 c2 c3 c4 c5 c6
      have hbad : isBadRune ((b - 0xE0) * 4096 + (b1 - 0x80) * 64 + (b2 - 0x80), [b, b1, b2])
          = false := by simp [isBadRune]
      simp only [hd, List.take_succ_cons, List.take_zero, hbad]
      by_cases hls : (b - 0xE0) * 4096 + (b1 - 0x80) * 64 + (b2 - 0x80) = 0x2028 ∨
          (b - 0xE0) * 4096 + (b1 - 0x80) * 64 + (b2 - 0x80) = 0x2029
      · have he : escapeRune ((b - 0xE0) * 4096 + (b1 - 0x80) * 64 + (b2 - 0x80), [b, b1, b2])
            = [0x5C, 0x75, 0x32, 0x30, 0x32,
                hexDigit (((b - 0xE0) * 4096 + (b1 - 0x80) * 64 + (b2 - 0x80)) % 16)] := by
          simp only [escapeRune]
          rw [if_neg hb, hbad, if_neg (by simp), if_pos hls]
        rw [he]
        have hx : hex4 0x32 0x30 0x32
            (hexDigit (((b - 0xE0) * 4096 + (b1 - 0x80) * 64 + (b2 - 0x80)) % 16))
            = some ((b - 0xE0) * 4096 + (b1 - 0x80) * 64 + (b2 - 0x80)) := by
          rcases hls with h | h <;> rw [h] <;> decide
        have := unquoteAux_uescape _ _ _ _ _ f tail hx (by omega)
        rw [henc] at this
        simpa using this
      · have he : escapeRune ((b - 0xE0) * 4096 + (b1 - 0x80) * 64 + (b2 - 0x80), [b, b1, b2])
            = [b, b1, b2] := by
          simp only [escapeRune]
          rw [if_neg hb, hbad, if_neg (by simp), if_neg hls]
        rw [he]
        have := unquoteAux_verbatim b _ f [b1, b2] tail hb'
          (decodeRune_three b b1 b2 tail c1 c2 c3 c4 c5 c6) henc
        simpa using this
    · have hd := decodeRune_four b b1 b2 b3 tl c1 c2 c3 c4 c5 c6 c7 c8
      have henc := encodeRune_four b b1 b2 b3 c1 c2 c3 c4 c5 c6 c7 c8
      have hbad : isBadRune ((b - 0xF0) * 262144 + (b1 - 0x80) * 4096 + (b2 - 0x80) * 64
          + (b3 - 0x80), [b, b1, b2, b3]) = false := by simp [isBadRune]
      simp only [hd, List.take_succ_cons, List.take_zero, hbad]
      have he : escapeRune ((b - 0xF0) * 262144 + (b1 - 0x80) * 4096 + (b2 - 0x80) * 64
          + (b3 - 0x80), [b, b1, b2, b3]) = [b, b1, b2, b3] := by
        have h90 : b = 0xF0 → 0x90 ≤ b1 := by
          intro h; unfold acceptLo at c3; rw [if_neg (by omega), if_pos h] at c3; exact c3
        have h80 : 0x80 ≤ b1 := by
          unfold acceptLo at c3; split_ifs at c3 <;> omega
        simp only [escapeRune]
        rw [if_neg hb, hbad, if_neg (by simp), if_neg (by omega)]
      rw [he]
      have := unquoteAux_verbatim b _ f [b1, b2, b3] tail hb'
        (decodeRune_four b b1 b2 b3 tail c1 c2 c3 c4 c5 c6 c7 c8) henc
      simpa using this

theorem escapeRune_ne_nil (b : Nat) (rest : GoString) :
    escapeRune ((decodeRune (b :: rest)).1, (b :: rest).take (decodeRune (b :: rest)).2)
      ≠ [] := by
  intro h
  have := unquoteAux_escapeRune b 0 rest [0x22]
  rw [h] at this
  simp [unquoteAux] at this

theorem unquoteAux_runesAux : ∀ (n : Nat) (s : GoString), s.length ≤ n →
    ∀ (g : Nat) (tail : GoString), ((runesAux n s).flatMap escapeRune).length + 1 ≤ g →
    unquoteAux g ((runesAux n s).flatMap escapeRune ++ 0x22 :: tail)
      = some ((runesAux n s).flatMap
          (fun seg => if isBadRune seg then [0xEF, 0xBF, 0xBD] else seg.2), tail) := by
  intro n
  induction n with
  | zero =>
    intro s hs g tail hg
    obtain ⟨g, rfl⟩ : ∃ k, g = k + 1 := ⟨g - 1, by omega⟩
    simp [runesAux, unquoteAux]
  | succ n ih =>
    intro s hs g tail hg
    rcases s with _ | ⟨b, rest⟩
    · obtain ⟨g, rfl⟩ : ∃ k, g = k + 1 := ⟨g - 1, by omega⟩
      simp [runesAux, unquoteAux]
    · have hw := decodeRune_width_pos b rest
      have hne := escapeRune_ne_nil b rest
      simp only [runesAux, List.flatMap_cons, List.append_assoc] at hg ⊢
      have hlen : 1 ≤ (escapeRune ((decodeRune (b :: rest)).1,
          (b :: rest).take (decodeRune (b :: rest)).2)).length :=
        List.length_pos.mpr hne
      rw [List.length_append] at hg
      obtain ⟨g, rfl⟩ : ∃ k, g = k + 1 := ⟨g - 1, by omega⟩
      rw [unquoteAux_escapeRune]
      rw [ih _ (by simp at hs ⊢; omega) g tail (by omega)]
      simp

theorem parseString_appendString (s tail : GoString) :
    parseString (appendString s ++ tail) = some (toValidUTF8 s, tail) := by
  unfold appendString toValidUTF8 runes
  show parseString (0x22 :: ((runesAux s.length s).flatMap escapeRune ++ [0x22] ++ tail)) = _
  simp only [parseString, List.append_assoc, List.singleton_append]
  exact unquoteAux_runesAux s.length s (le_refl _) _ tail (by simp)

theorem runesAux_bytes : ∀ (n : Nat) (s : GoString), s.length ≤ n →
    (runesAux n s).flatMap (fun seg => seg.2) = s := by
  intro n
  induction n with
  | zero => intro s hs; have : s = [] := List.length_eq_zero.mp (by omega); simp [this, runesAux]
  | succ n ih =>
    intro s hs
    rcases s with _ | ⟨b, rest⟩
    · simp [runesAux]
    · have hw := decodeRune_width_pos b rest
      simp only [runesAux, List.flatMap_cons]
      rw [ih _ (by simp at hs ⊢; omega)]
      exact List.take_append_drop _ _

theorem flatMap_fix_of_valid (l : List (Nat × GoString))
    (h : l.all (fun seg => !isBadRune seg) = true) :
    l.flatMap (fun seg => if isBadRune seg then [0xEF, 0xBF, 0xBD] else seg.2)
      = l.flatMap (fun seg => seg.2) := by
  induction l with
  | nil => rfl
  | cons a l ih =>
    simp only [List.all_cons, Bool.and_eq_true, Bool.not_eq_true'] at h
    simp only [List.flatMap_cons, ih h.2, h.1]
    simp

theorem toValidUTF8_of_valid (s : GoString) (h : validUTF8 s = true) : toValidUTF8 s = s := by
  unfold toValidUTF8
  rw [flatMap_fix_of_valid _ h]
  exact runesAux_bytes s.length s (le_refl _)

/-! ## Lemmas on integers -/

theorem parseNat_append_singleton (xs : GoString) (y : Nat) :
    parseNat (xs ++ [y]) = parseNat xs * 10 + (y - 0x30) := by
  simp [parseNat, List.foldl_append]

theorem natDigitsAux_spec : ∀ (f n : Nat), n < 10 ^ f → 0 < f →
    ∃ d ds, natDigitsAux f n = d :: ds ∧ ds.all isDigit = true ∧
      ((n = 0 ∧ d = 0x30 ∧ ds = []) ∨ (0 < n ∧ 0x31 ≤ d ∧ d ≤ 0x39)) ∧
      parseNat (d :: ds) = n := by
  intro f
  induction f with
  | zero => intro n _ h; omega
  | succ f ih =>
    intro n hn _
    by_cases h10 : n < 10
    · refine ⟨0x30 + n, [], ?_, rfl, ?_, ?_⟩
      · simp [natDigitsAux, h10]
      · by_cases h0 : n = 0
        · left; exact ⟨h0, by omega, rfl⟩
        · right; omega
      · simp [parseNat]
    · have hq : n / 10 < 10 ^ f := by
        rw [Nat.div_lt_iff_lt_mul (by norm_num)]; rw [pow_succ] at hn; omega
      have hf : 0 < f := by
        by_contra h0
        have hf0 : f = 0 := by omega
        subst hf0
        simp at hq
        omega
      obtain ⟨d, ds, e, hall, hd, hp⟩ := ih (n / 10) hq hf
      refine ⟨d, ds ++ [0x30 + n % 10], ?_, ?_, ?_, ?_⟩
      · simp [natDigitsAux, h10, e]
      · simp only [List.all_append, hall, Bool.true_and, List.all_cons, List.all_nil,
          Bool.and_true]
        simp [isDigit]; omega
      · right
        rcases hd with ⟨h0, _, _⟩ | h
        · omega
        · omega
      · have : d :: (ds ++ [0x30 + n % 10]) = (d :: ds) ++ [0x30 + n % 10] := rfl
        rw [this, parseNat_append_singleton, hp]
        omega

theorem span_isDigit_append (ds t : GoString) (c : Nat) (h : ds.all isDigit = true)
    (hc : isDigit c = false) : (ds ++ c :: t).span isDigit = (ds, c :: t) := by
  induction ds with
  | nil => simp [List.span_eq_take_drop, hc]
  | cons a ds ih =>
    simp only [List.all_cons, Bool.and_eq_true] at h
    have := ih h.2
    simp only [List.span_eq_take_drop, Prod.mk.injEq] at this ⊢
    simp [h.1, this.1, this.2]

theorem scanInt_natDigits (sign t : GoString) (n : Nat) (hn : n < 10 ^ 20) :
    scanInt sign (natDigitsAux 20 n ++ 0x2C :: t)
      = some (sign ++ natDigitsAux 20 n, 0x2C :: t) := by
  obtain ⟨d, ds, e, hall, hd, _⟩ := natDigitsAux_spec 20 n hn (by norm_num)
  rw [e]
  rcases hd with ⟨_, rfl, rfl⟩ | ⟨_, h1, h2⟩
  · simp [scanInt, scanFrac, scanExp]
  · have hsp := span_isDigit_append ds t 0x2C hall (by decide)
    simp only [List.cons_append, scanInt]
    rw [if_neg (by omega), if_pos ⟨h1, h2⟩, hsp]
    simp [scanFrac, scanExp]

theorem natAbs_lt_of_isInt64 (g : Int) (h : isInt64 g) : g.natAbs < 10 ^ 20 := by
  unfold isInt64 at h
  have : (10 : Nat) ^ 20 = 100000000000000000000 := by norm_num
  omega

theorem scanNumber_formatInt (g : Int) (t : GoString) (h : isInt64 g) :
    scanNumber (formatInt g ++ 0x2C :: t) = some (formatInt g, 0x2C :: t) := by
  have hn := natAbs_lt_of_isInt64 g h
  obtain ⟨d, ds, e, _, hd, _⟩ := natDigitsAux_spec 20 g.natAbs hn (by norm_num)
  unfold formatInt
  split_ifs with hneg
  · simp only [List.cons_append, scanNumber]
    exact scanInt_natDigits [0x2D] t _ hn
  · have h2 : d ≠ 0x2D := by rcases hd with ⟨_, rfl, _⟩ | ⟨_, h1, h2⟩ <;> omega
    have := scanInt_natDigits [] t _ hn
    rw [e] at this ⊢
    simp only [List.cons_append, scanNumber]
    split
    · rename_i heq; simp at heq; exact absurd heq.1 h2
    · simpa using this

theorem parseInt_formatInt (g : Int) (h : isInt64 g) : parseInt (formatInt g) = some g := by
  have hn := natAbs_lt_of_isInt64 g h
  obtain ⟨d, ds, e, hall, hd, hp⟩ := natDigitsAux_spec 20 g.natAbs hn (by norm_num)
  have hdig : isDigit d = true := by
    rcases hd with ⟨_, rfl, _⟩ | ⟨_, h1, h2⟩
    · decide
    · simp [isDigit]; omega
  unfold isInt64 at h
  unfold formatInt
  split_ifs with hneg
  · rw [e]
    simp only [parseInt]
    rw [if_pos ⟨by simp, by simp [hdig, hall], by rw [hp]; omega⟩, hp]
    congr 1; omega
  · rw [e]
    have h2 : d ≠ 0x2D := by rcases hd with ⟨_, rfl, _⟩ | ⟨_, h1, h2⟩ <;> omega
    unfold parseInt
    split
    · rename_i heq; simp at heq; exact absurd heq.1 h2
    · rw [if_pos ⟨by simp, by simp [hdig, hall], by rw [hp]; omega⟩, hp]
      congr 1; omega

/-! ## Lemmas on the JSON form of a record -/

theorem skipSpace_cons (c : Nat) (x : GoString) (h : isSpace c = false) :
    skipSpace (c :: x) = c :: x := by
  simp [skipSpace, List.dropWhile_cons, h]

theorem appendString_eq_cons (s : GoString) :
    ∃ x, appendString s = 0x22 :: x := ⟨_, rfl⟩

theorem parseValue_appendString (f : Nat) (s tail : GoString) :
    parseValue (f + 1) (appendString s ++ tail) = some (JVal.str (toValidUTF8 s), tail) := by
  have hp := parseString_appendString s tail
  obtain ⟨x, hx⟩ := appendString_eq_cons s
  rw [hx] at hp ⊢
  simp only [List.cons_append, parseValue]
  rw [skipSpace_cons _ _ (by decide)]
  simp only [List.cons_append] at hp
  simp [hp]

theorem parseValue_formatInt (f : Nat) (g : Int) (t : GoString) (h : isInt64 g) :
    parseValue (f + 1) (formatInt g ++ 0x2C :: t)
      = some (JVal.num (formatInt g), 0x2C :: t) := by
  have hs := scanNumber_formatInt g t h
  have hn := natAbs_lt_of_isInt64 g h
  obtain ⟨d, ds, e, _, hd, _⟩ := natDigitsAux_spec 20 g.natAbs hn (by norm_num)
  have hdig : 0x30 ≤ d ∧ d ≤ 0x39 := by
    rcases hd with ⟨_, rfl, _⟩ | ⟨_, h1, h2⟩ <;> omega
  have key : ∀ c x res, (c = 0x2D ∨ (0x30 ≤ c ∧ c ≤ 0x39)) →
      scanNumber (c :: x) = some (res, 0x2C :: t) →
      parseValue (f + 1) (c :: x) = some (JVal.num res, 0x2C :: t) := by
    intro c x res hc hsc
    have hsp : isSpace c = false := by
      rcases hc with rfl | hc
      · decide
      · simp [isSpace]; omega
    have hcond : c = 0x2D ∨ isDigit c = true := by
      rcases hc with rfl | hc
      · left; rfl
      · right; simp [isDigit]; omega
    simp only [parseValue]
    rw [skipSpace_cons _ _ hsp]
    simp only []
    rw [if_neg (by omega), if_neg (by omega), if_neg (by omega), if_pos hcond, hsc]
    rfl
  unfold formatInt at hs ⊢
  split_ifs at hs ⊢ with hneg
  · exact key _ _ _ (Or.inl rfl) hs
  · rw [e] at hs ⊢
    exact key _ _ _ (Or.inr hdig) hs

theorem parseMember_appendString (pv : GoString → Option (JVal × GoString))
    (k tail rest : GoString) (v : JVal) (hv : pv tail = some (v, rest)) :
    parseMember pv (appendString k ++ 0x3A :: tail) = some ((toValidUTF8 k, v), rest) := by
  have hp := parseString_appendString k (0x3A :: tail)
  obtain ⟨x, hx⟩ := appendString_eq_cons k
  rw [hx] at hp ⊢
  simp only [List.cons_append] at hp ⊢
  unfold parseMember
  rw [skipSpace_cons _ _ (by decide), hp]
  simp only []
  rw [skipSpace_cons _ _ (by decide)]
  simp only [hv]

theorem parseMembers_comma (pv : GoString → Option (JVal × GoString)) (f : Nat)
    (r r1 : GoString) (m : GoString × JVal) (hm : parseMember pv r = some (m, r1)) :
    parseMembers pv (f + 1) (0x2C :: r)
      = (parseMembers pv f r1).map (fun p => (m :: p.1, p.2)) := by
  simp only [parseMembers]
  rw [skipSpace_cons _ _ (by decide)]
  simp only [hm]

theorem parseMembers_close (pv : GoString → Option (JVal × GoString)) (f : Nat)
    (r : GoString) : parseMembers pv (f + 1) (0x7D :: r) = some ([], r) := by
  simp only [parseMembers]
  rw [skipSpace_cons _ _ (by decide)]

theorem parseValue_object (f : Nat) (x r1 : GoString) (m : GoString × JVal)
    (hm : parseMember (parseValue f) (0x22 :: x) = some (m, r1)) :
    parseValue (f + 1) (0x7B :: 0x22 :: x)
      = (parseMembers (parseValue f) (r1.length + 1) r1).map
          (fun p => (JVal.obj (m :: p.1), p.2)) := by
  simp only [parseValue]
  rw [skipSpace_cons _ _ (by decide)]
  simp only [if_true]
  rw [skipSpace_cons _ _ (by decide)]
  simp only [hm]

theorem parseValue_ratingJSON (f : Nat) (r : Rating) (h : isInt64 r.Grade) :
    parseValue (f + 2) (ratingJSON r)
      = some (JVal.obj [(lit "Id", JVal.str (toValidUTF8 r.Id)),
          (lit "Place", JVal.str (toValidUTF8 r.Place)),
          (lit "Grade", JVal.num (formatInt r.Grade)),
          (lit "Comment", JVal.str (toValidUTF8 r.Comment))], []) := by
  have k1 : toValidUTF8 (lit "Id") = lit "Id" := by decide
  have k2 : toValidUTF8 (lit "Place") = lit "Place" := by decide
  have k3 : toValidUTF8 (lit "Grade") = lit "Grade" := by decide
  have k4 : toValidUTF8 (lit "Comment") = lit "Comment" := by decide
  have m4 := parseMember_appendString (parseValue (f + 1)) (lit "Comment")
    (appendString r.Comment ++ [0x7D]) [0x7D] _ (parseValue_appendString f r.Comment [0x7D])
  have m3 := parseMember_appendString (parseValue (f + 1)) (lit "Grade")
    (formatInt r.Grade ++ 0x2C :: (appendString (lit "Comment") ++ 0x3A ::
      (appendString r.Comment ++ [0x7D]))) _ _ (parseValue_formatInt f r.Grade _ h)
  have m2 := parseMember_appendString (parseValue (f + 1)) (lit "Place")
    (appendString r.Place ++ 0x2C :: (appendString (lit "Grade") ++ 0x3A ::
      (formatInt r.Grade ++ 0x2C :: (appendString (lit "Comment") ++ 0x3A ::
      (appendString r.Comment ++ [0x7D]))))) _ _ (parseValue_appendString f r.Place _)
  have m1 := parseMember_appendString (parseValue (f + 1)) (lit "Id")
    (appendString r.Id ++ 0x2C :: (appendString (lit "Place") ++ 0x3A ::
      (appendString r.Place ++ 0x2C :: (appendString (lit "Grade") ++ 0x3A ::
      (formatInt r.Grade ++ 0x2C :: (appendString (lit "Comment") ++ 0x3A ::
      (appendString r.Comment ++ [0x7D]))))))) _ _ (parseValue_appendString f r.Id _)
  rw [k1] at m1; rw [k2] at m2; rw [k3] at m3; rw [k4] at m4
  obtain ⟨x, hx⟩ := appendString_eq_cons (lit "Id")
  unfold ratingJSON
  rw [hx] at m1 ⊢
  simp only [List.cons_append] at m1 ⊢
  rw [show f + 2 = (f + 1) + 1 from rfl, parseValue_object _ _ _ _ m1]
  rw [show ∀ (l : GoString), (0x2C :: l).length + 1 = (l.length + 1) + 1 from fun _ => rfl]
  rw [parseMembers_comma _ _ _ _ _ m2]
  obtain ⟨n, hn⟩ : ∃ n, (appendString (lit "Place") ++ 0x3A :: (appendString r.Place ++ 0x2C ::
      (appendString (lit "Grade") ++ 0x3A :: (formatInt r.Grade ++ 0x2C ::
      (appendString (lit "Comment") ++ 0x3A :: (appendString r.Comment ++ [0x7D])))))).length
      = n + 3 := by
    refine ⟨(appendString (lit "Place") ++ 0x3A :: (appendString r.Place ++ 0x2C ::
      (appendString (lit "Grade") ++ 0x3A :: (formatInt r.Grade ++ 0x2C ::
      (appendString (lit "Comment") ++ 0x3A :: (appendString r.Comment ++ [0x7D])))))).length
      - 3, ?_⟩
    simp only [List.length_append, List.length_cons, List.length_nil]
    omega
  rw [hn, show n + 3 = n + 2 + 1 from rfl, parseMembers_comma _ _ _ _ _ m3,
    parseMembers_comma _ _ _ _ _ m4, parseMembers_close]
  rfl

theorem parseJSON_ratingJSON (r : Rating) (h : isInt64 r.Grade) :
    parseJSON (ratingJSON r)
      = some (JVal.obj [(lit "Id", JVal.str (toValidUTF8 r.Id)),
          (lit "Place", JVal.str (toValidUTF8 r.Place)),
          (lit "Grade", JVal.num (formatInt r.Grade)),
          (lit "Comment", JVal.str (toValidUTF8 r.Comment))]) := by
  unfold parseJSON
  have hl : ∃ n, (ratingJSON r).length + 1 = n + 2 := ⟨_, rfl⟩
  obtain ⟨n, hn⟩ := hl
  rw [hn, parseValue_ratingJSON n r h]
  rfl

theorem decodeRating_members (a b c : GoString) (g : Int) (h : isInt64 g) :
    decodeRating (JVal.obj [(lit "Id", JVal.str a), (lit "Place", JVal.str b),
        (lit "Grade", JVal.num (formatInt g)), (lit "Comment", JVal.str c)])
      = some ⟨a, b, g, c⟩ := by
  have e11 : equalFold (lit "Id") (lit "Id") = true := by decide
  have e21 : equalFold (lit "Place") (lit "Id") = false := by decide
  have e22 : equalFold (lit "Place") (lit "Place") = true := by decide
  have e31 : equalFold (lit "Grade") (lit "Id") = false := by decide
  have e32 : equalFold (lit "Grade") (lit "Place") = false := by decide
  have e33 : equalFold (lit "Grade") (lit "Grade") = true := by decide
  have e41 : equalFold (lit "Comment") (lit "Id") = false := by decide
  have e42 : equalFold (lit "Comment") (lit "Place") = false := by decide
  have e43 : equalFold (lit "Comment") (lit "Grade") = false := by decide
  have e44 : equalFold (lit "Comment") (lit "Comment") = true := by decide
  simp [decodeRating, storeMembers, storeMember, e11, e21, e22, e31, e32, e33, e41, e42, e43,
    e44, parseInt_formatInt g h]

theorem jsonUnmarshal_ratingJSON (r : Rating) (h : isInt64 r.Grade) :
    jsonUnmarshal (ratingJSON r)
      = .ok ⟨toValidUTF8 r.Id, toValidUTF8 r.Place, r.Grade, toValidUTF8 r.Comment⟩ := by
  unfold jsonUnmarshal
  rw [parseJSON_ratingJSON r h]
  simp only [decodeRating_members _ _ _ _ h]

/-! ## Lemmas on the world state -/

theorem lookup_insertKV_self (k v : GoString) (l : List (GoString × GoString))
    (h : l.lookup k = none) : (insertKV k v l).lookup k = some v := by
  induction l with
  | nil => simp [insertKV, List.lookup]
  | cons p l ih =>
    obtain ⟨k', v'⟩ := p
    have hne : (k == k') = false := by
      by_contra hc
      simp only [Bool.not_eq_false] at hc
      simp [List.lookup, hc] at h
    have hl : l.lookup k = none := by simpa [List.lookup, hne] using h
    simp only [insertKV]
    split_ifs
    · simp [List.lookup]
    · simp [List.lookup, hne, ih hl]

theorem lookup_insertKV_other (k k' v : GoString) (l : List (GoString × GoString))
    (h : k' ≠ k) : (insertKV k v l).lookup k' = l.lookup k' := by
  have hne : (k' == k) = false := by simpa using h
  induction l with
  | nil => simp [insertKV, List.lookup, hne]
  | cons p l ih =>
    obtain ⟨a, b⟩ := p
    simp only [insertKV]
    split_ifs
    · simp [List.lookup, hne]
    · cases hb : (k' == a) <;> simp [List.lookup, hb, ih]

theorem lookup_deleteKV_self (k : GoString) (l : List (GoString × GoString)) :
    (deleteKV k l).lookup k = none := by
  induction l with
  | nil => rfl
  | cons p l ih =>
    obtain ⟨a, b⟩ := p
    by_cases h : a = k
    · simp [deleteKV, List.filter, h] at ih ⊢; exact ih
    · have hne : (k == a) = false := by simpa using fun e => h e.symm
      simp [deleteKV, List.filter, h, List.lookup, hne] at ih ⊢; exact ih

theorem lookup_deleteKV_other (k k' : GoString) (l : List (GoString × GoString))
    (h : k' ≠ k) : (deleteKV k l).lookup k' = l.lookup k' := by
  induction l with
  | nil => rfl
  | cons p l ih =>
    obtain ⟨a, b⟩ := p
    by_cases ha : a = k
    · subst ha
      have hne : (k' == a) = false := by simpa using h
      simp [deleteKV, List.filter, List.lookup, hne] at ih ⊢; exact ih
    · cases hb : (k' == a) <;> simp [deleteKV, List.filter, ha, List.lookup, hb] at ih ⊢
      exact ih

theorem lookup_putKV_self (k v : GoString) (l : List (GoString × GoString)) :
    (putKV k v l).lookup k = some v :=
  lookup_insertKV_self k v _ (lookup_deleteKV_self k l)

theorem lookup_putKV_other (k k' v : GoString) (l : List (GoString × GoString))
    (h : k' ≠ k) : (putKV k v l).lookup k' = l.lookup k' := by
  unfold putKV
  rw [lookup_insertKV_other k k' v _ h, lookup_deleteKV_other k k' l h]

/-! ## Lemmas on the transactions -/

theorem GetState_ok_iff (s : Stub) (key : GoString) (x : Option GoString) :
    s.GetState key = .ok x ↔ s.getErr key = none ∧ s.state.lookup key = x := by
  unfold Stub.GetState
  cases h : s.getErr key <;> simp

theorem RatingExists_of_GetState (s : Stub) (id : GoString) (x : Option GoString)
    (h : s.GetState id = .ok x) : RatingExists s id = .ok x.isSome := by
  simp [RatingExists, h]

theorem CreateRating_of_absent (s : Stub) (id place : GoString) (grade : Int)
    (comment : GoString) (hget : s.GetState id = .ok none)
    (hput : s.putErr id (ratingJSON ⟨id, place, grade, comment⟩) = none) :
    CreateRating s id place grade comment
      = (.ok (), { s with
          state := putKV id (ratingJSON ⟨id, place, grade, comment⟩) s.state
          event := some (lit "CreateRatingEvent",
            lit "Rating " ++ id ++ lit " created successfully") }) := by
  simp [CreateRating, RatingExists, hget, jsonMarshal, Stub.PutState, hput, Stub.SetEvent]

theorem CreateRating_ok_inv (s : Stub) (id place : GoString) (grade : Int)
    (comment : GoString) (h : (CreateRating s id place grade comment).1 = .ok ()) :
    s.GetState id = .ok none ∧
      s.putErr id (ratingJSON ⟨id, place, grade, comment⟩) = none := by
  unfold CreateRating RatingExists Stub.GetState at h
  unfold Stub.GetState
  cases hg : s.getErr id with
  | some e => simp [hg] at h
  | none =>
    cases hl : s.state.lookup id with
    | some v => simp [hg, hl] at h
    | none =>
      cases hp : s.putErr id (ratingJSON ⟨id, place, grade, comment⟩) with
      | some e => simp [hg, hl, jsonMarshal, Stub.PutState, hp] at h
      | none => simp

theorem CreateRating_of_present (s : Stub) (id place : GoString) (grade : Int)
    (comment v : GoString) (hget : s.GetState id = .ok (some v)) :
    CreateRating s id place grade comment
      = (.error (.errorf (lit "the rating " ++ id ++ lit " already exists")), s) := by
  simp [CreateRating, RatingExists, hget]

theorem ReadRating_of_stored (s : Stub) (id : GoString) (r : Rating)
    (hget : s.GetState id = .ok (some (ratingJSON r))) (hg : isInt64 r.Grade) :
    ReadRating s id
      = .ok ⟨toValidUTF8 r.Id, toValidUTF8 r.Place, r.Grade, toValidUTF8 r.Comment⟩ := by
  simp [ReadRating, hget, jsonUnmarshal_ratingJSON r hg]

theorem ReadRating_of_absent (s : Stub) (id : GoString) (hget : s.GetState id = .ok none) :
    ReadRating s id = .error (.errorf (lit "the rating " ++ id ++ lit " does not exist")) := by
  simp [ReadRating, hget]

theorem UpdateRating_of_present (s : Stub) (id place : GoString) (grade : Int)
    (comment v : GoString) (hget : s.GetState id = .ok (some v)) :
    UpdateRating s id place grade comment
      = s.PutState id (ratingJSON ⟨id, place, grade, comment⟩) := by
  simp [UpdateRating, RatingExists, hget, jsonMarshal]

theorem UpdateRating_of_absent (s : Stub) (id place : GoString) (grade : Int)
    (comment : GoString) (hget : s.GetState id = .ok none) :
    UpdateRating s id place grade comment
      = (.error (.errorf (lit "the rating " ++ id ++ lit " does not exist")), s) := by
  simp [UpdateRating, RatingExists, hget]

theorem DeleteRating_of_present (s : Stub) (id v : GoString)
    (hget : s.GetState id = .ok (some v)) : DeleteRating s id = s.DelState id := by
  simp [DeleteRating, RatingExists, hget]

theorem DeleteRating_of_absent (s : Stub) (id : GoString) (hget : s.GetState id = .ok none) :
    DeleteRating s id
      = (.error (.errorf (lit "the rating " ++ id ++ lit " does not exist")), s) := by
  simp [DeleteRating, RatingExists, hget]

theorem GetState_after_put (s : Stub) (id value : GoString) (hg : s.getErr id = none) :
    Stub.GetState { s with state := putKV id value s.state } id = .ok (some value) := by
  simp [Stub.GetState, hg, lookup_putKV_self]

theorem GetState_after_delete (s : Stub) (id : GoString) (hg : s.getErr id = none) :
    Stub.GetState { s with state := deleteKV id s.state } id = .ok none := by
  simp [Stub.GetState, hg, lookup_deleteKV_self]

/-! ## C1: create, then read -/

/-- C1, counterexample: on the empty ledger, whose put succeeds, `CreateRating` with a
comment that is not valid UTF-8 succeeds, and the following `ReadRating` returns a comment
that differs from the one passed. -/
theorem C1_counterexample :
    emptyLedger.GetState (lit "r1") = .ok none ∧
    emptyLedger.putErr (lit "r1") (ratingJSON ⟨lit "r1", lit "A", 5, [0xFF]⟩) = none ∧
    (CreateRating emptyLedger (lit "r1") (lit "A") 5 [0xFF]).1 = .ok () ∧
    ReadRating (CreateRating emptyLedger (lit "r1") (lit "A") 5 [0xFF]).2 (lit "r1")
      = .ok ⟨lit "r1", lit "A", 5, [0xEF, 0xBF, 0xBD]⟩ ∧
    ReadRating (CreateRating emptyLedger (lit "r1") (lit "A") 5 [0xFF]).2 (lit "r1")
      ≠ .ok ⟨lit "r1", lit "A", 5, [0xFF]⟩ := by
  decide

/-- C1, amended: when the ledger holds no value under `id` and its put succeeds, for every
place, comment and grade (a Go `int`), `CreateRating(id, place, grade, comment)` succeeds
and the following `ReadRating(id)` succeeds and returns the four fields with every byte of
`id`, `place` and `comment` that is not valid UTF-8 replaced by U+FFFD; it returns exactly
`(id, place, grade, comment)` when the three strings are valid UTF-8. -/
theorem C1_create_then_read (s : Stub) (id place : GoString) (grade : Int)
    (comment : GoString) (hget : s.GetState id = .ok none)
    (hput : s.putErr id (ratingJSON ⟨id, place, grade, comment⟩) = none)
    (hgrade : isInt64 grade) :
    (CreateRating s id place grade comment).1 = .ok () ∧
    ReadRating (CreateRating s id place grade comment).2 id
      = .ok ⟨toValidUTF8 id, toValidUTF8 place, grade, toValidUTF8 comment⟩ ∧
    (validUTF8 id = true → validUTF8 place = true → validUTF8 comment = true →
      ReadRating (CreateRating s id place grade comment).2 id
        = .ok ⟨id, place, grade, comment⟩) := by
  have hg := ((GetState_ok_iff s id none).mp hget).1
  have hread : ReadRating (CreateRating s id place grade comment).2 id
      = .ok ⟨toValidUTF8 id, toValidUTF8 place, grade, toValidUTF8 comment⟩ := by
    rw [CreateRating_of_absent s id place grade comment hget hput]
    exact ReadRating_of_stored _ id ⟨id, place, grade, comment⟩
      (by simp [Stub.GetState, hg, lookup_putKV_self]) hgrade
  refine ⟨by rw [CreateRating_of_absent s id place grade comment hget hput], hread, ?_⟩
  intro h1 h2 h3
  rw [hread, toValidUTF8_of_valid id h1, toValidUTF8_of_valid place h2,
    toValidUTF8_of_valid comment h3]

/-- C1, witness: the amended statement at the empty ledger and an ASCII record. -/
theorem C1_create_then_read_witness :
    (emptyLedger.GetState (lit "r1") = .ok none ∧
      emptyLedger.putErr (lit "r1") (ratingJSON ⟨lit "r1", lit "A", 5, lit "ok"⟩) = none ∧
      isInt64 5) ∧
    ((CreateRating emptyLedger (lit "r1") (lit "A") 5 (lit "ok")).1 = .ok () ∧
    ReadRating (CreateRating emptyLedger (lit "r1") (lit "A") 5 (lit "ok")).2 (lit "r1")
      = .ok ⟨toValidUTF8 (lit "r1"), toValidUTF8 (lit "A"), 5, toValidUTF8 (lit "ok")⟩ ∧
    (validUTF8 (lit "r1") = true → validUTF8 (lit "A") = true →
      validUTF8 (lit "ok") = true →
      ReadRating (CreateRating emptyLedger (lit "r1") (lit "A") 5 (lit "ok")).2 (lit "r1")
        = .ok ⟨lit "r1", lit "A", 5, lit "ok"⟩)) :=
  ⟨by decide, C1_create_then_read emptyLedger (lit "r1") (lit "A") 5 (lit "ok") (by decide)
    (by decide) (by decide)⟩

theorem ReadRating_after_create (s : Stub) (id place : GoString) (grade : Int)
    (comment : GoString) (hget : s.GetState id = .ok none)
    (hput : s.putErr id (ratingJSON ⟨id, place, grade, comment⟩) = none)
    (hgrade : isInt64 grade) :
    ReadRating (CreateRating s id place grade comment).2 id
      = .ok ⟨toValidUTF8 id, toValidUTF8 place, grade, toValidUTF8 comment⟩ := by
  have hg := ((GetState_ok_iff s id none).mp hget).1
  rw [CreateRating_of_absent s id place grade comment hget hput]
  exact ReadRating_of_stored _ id ⟨id, place, grade, comment⟩
    (by simp [Stub.GetState, hg, lookup_putKV_self]) hgrade

/-! ## C2: create on an existing id -/

/-- C2: when the ledger already holds a value under `id`, `CreateRating(id, ...)` fails
with the error "the rating <id> already exists" for every place, grade and comment and
leaves the ledger as it was; so after a successful `CreateRating` a second one with the
same `id` fails that way, and `ReadRating(id)` still returns the record of the first
call. -/
theorem C2_create_existing (s : Stub) (id place : GoString) (grade : Int)
    (comment v : GoString) (hv : s.GetState id = .ok (some v)) :
    CreateRating s id place grade comment
      = (.error (.errorf (lit "the rating " ++ id ++ lit " already exists")), s) ∧
    (∀ (s0 : Stub) (p : GoString) (g : Int) (c : GoString),
      (CreateRating s0 id p g c).1 = .ok () →
      CreateRating (CreateRating s0 id p g c).2 id place grade comment
        = (.error (.errorf (lit "the rating " ++ id ++ lit " already exists")),
            (CreateRating s0 id p g c).2) ∧
      ReadRating (CreateRating (CreateRating s0 id p g c).2 id place grade comment).2 id
        = ReadRating (CreateRating s0 id p g c).2 id ∧
      (isInt64 g → ReadRating (CreateRating s0 id p g c).2 id
        = .ok ⟨toValidUTF8 id, toValidUTF8 p, g, toValidUTF8 c⟩)) := by
  refine ⟨CreateRating_of_present s id place grade comment v hv, ?_⟩
  intro s0 p g c hok
  obtain ⟨hget, hput⟩ := CreateRating_ok_inv s0 id p g c hok
  have hg := ((GetState_ok_iff s0 id none).mp hget).1
  have hsec : CreateRating (CreateRating s0 id p g c).2 id place grade comment
      = (.error (.errorf (lit "the rating " ++ id ++ lit " already exists")),
          (CreateRating s0 id p g c).2) := by
    rw [CreateRating_of_absent s0 id p g c hget hput]
    exact CreateRating_of_present _ id place grade comment (ratingJSON ⟨id, p, g, c⟩)
      (by simp [Stub.GetState, hg, lookup_putKV_self])
  refine ⟨hsec, by rw [hsec], ?_⟩
  intro hgr
  exact ReadRating_after_create s0 id p g c hget hput hgr

/-- C2, witness: the ledger holding `r1`. -/
theorem C2_create_existing_witness :
    (ledgerOf oneRating).GetState (lit "r1")
      = .ok (some (ratingJSON ⟨lit "r1", lit "A", 5, lit "ok"⟩)) ∧
    CreateRating (ledgerOf oneRating) (lit "r1") (lit "B") 1 (lit "x")
      = (.error (.errorf (lit "the rating " ++ lit "r1" ++ lit " already exists")),
          ledgerOf oneRating) :=
  ⟨by decide, (C2_create_existing (ledgerOf oneRating) (lit "r1") (lit "B") 1 (lit "x")
    (ratingJSON ⟨lit "r1", lit "A", 5, lit "ok"⟩) (by decide)).1⟩
/-! ## C3: update -/

/-- C3, counterexample: a ledger holds a value under `r1`, yet `UpdateRating` fails there
because the put of the host fails; and on a ledger whose put succeeds, an update with a
comment that is not valid UTF-8 is read back with another comment. -/
theorem C3_counterexample :
    (putFailLedger.GetState (lit "r1")
        = .ok (some (ratingJSON ⟨lit "r1", lit "A", 5, lit "ok"⟩)) ∧
      (UpdateRating putFailLedger (lit "r1") (lit "B") 1 (lit "x")).1
        = .error (.host (lit "unavailable"))) ∧
    ((ledgerOf oneRating).GetState (lit "r1")
        = .ok (some (ratingJSON ⟨lit "r1", lit "A", 5, lit "ok"⟩)) ∧
      (UpdateRating (ledgerOf oneRating) (lit "r1") (lit "B") 1 [0xFF]).1 = .ok () ∧
      ReadRating (UpdateRating (ledgerOf oneRating) (lit "r1") (lit "B") 1 [0xFF]).2 (lit "r1")
        = .ok ⟨lit "r1", lit "B", 1, [0xEF, 0xBF, 0xBD]⟩ ∧
      ReadRating (UpdateRating (ledgerOf oneRating) (lit "r1") (lit "B") 1 [0xFF]).2 (lit "r1")
        ≠ .ok ⟨lit "r1", lit "B", 1, [0xFF]⟩) := by
  decide

/-- C3, amended: when the ledger holds a value under `id` and its put succeeds, for every
`p2`, `c2` and `g2` (a Go `int`), `UpdateRating(id, p2, g2, c2)` succeeds and the
following `ReadRating(id)` returns `(id, p2, g2, c2)` with every byte of the three strings
that is not valid UTF-8 replaced by U+FFFD, hence exactly `(id, p2, g2, c2)` when they are
valid UTF-8, whatever the former record was; when a ledger holds no value under `id`,
`UpdateRating` fails with "the rating <id> does not exist" and leaves the ledger as it
was. -/
theorem C3_update (s : Stub) (id p2 : GoString) (g2 : Int) (c2 v : GoString)
    (hv : s.GetState id = .ok (some v))
    (hput : s.putErr id (ratingJSON ⟨id, p2, g2, c2⟩) = none) (hgrade : isInt64 g2) :
    (UpdateRating s id p2 g2 c2).1 = .ok () ∧
    ReadRating (UpdateRating s id p2 g2 c2).2 id
      = .ok ⟨toValidUTF8 id, toValidUTF8 p2, g2, toValidUTF8 c2⟩ ∧
    (validUTF8 id = true → validUTF8 p2 = true → validUTF8 c2 = true →
      ReadRating (UpdateRating s id p2 g2 c2).2 id = .ok ⟨id, p2, g2, c2⟩) ∧
    (∀ s0 : Stub, s0.GetState id = .ok none →
      UpdateRating s0 id p2 g2 c2
        = (.error (.errorf (lit "the rating " ++ id ++ lit " does not exist")), s0)) := by
  have hg := ((GetState_ok_iff s id (some v)).mp hv).1
  have hup : UpdateRating s id p2 g2 c2
      = (.ok (), { s with state := putKV id (ratingJSON ⟨id, p2, g2, c2⟩) s.state }) := by
    rw [UpdateRating_of_present s id p2 g2 c2 v hv]
    simp [Stub.PutState, hput]
  have hread : ReadRating (UpdateRating s id p2 g2 c2).2 id
      = .ok ⟨toValidUTF8 id, toValidUTF8 p2, g2, toValidUTF8 c2⟩ := by
    rw [hup]
    exact ReadRating_of_stored _ id ⟨id, p2, g2, c2⟩ (GetState_after_put s id _ hg) hgrade
  refine ⟨by rw [hup], hread, ?_, fun s0 h0 => UpdateRating_of_absent s0 id p2 g2 c2 h0⟩
  intro h1 h2 h3
  rw [hread, toValidUTF8_of_valid id h1, toValidUTF8_of_valid p2 h2,
    toValidUTF8_of_valid c2 h3]

/-- C3, witness: the ledger holding `r1`, updated with an ASCII record. -/
theorem C3_update_witness :
    ((ledgerOf oneRating).GetState (lit "r1")
        = .ok (some (ratingJSON ⟨lit "r1", lit "A", 5, lit "ok"⟩)) ∧
      (ledgerOf oneRating).putErr (lit "r1") (ratingJSON ⟨lit "r1", lit "B", 1, lit "x"⟩)
        = none ∧ isInt64 1) ∧
    (UpdateRating (ledgerOf oneRating) (lit "r1") (lit "B") 1 (lit "x")).1 = .ok () :=
  ⟨by decide, (C3_update (ledgerOf oneRating) (lit "r1") (lit "B") 1 (lit "x")
    (ratingJSON ⟨lit "r1", lit "A", 5, lit "ok"⟩) (by decide) (by decide) (by decide)).1⟩

/-! ## C4: delete -/

/-- C4, counterexample: a ledger holds a value under `r1`, yet `DeleteRating` fails there
because the delete of the host fails. -/
theorem C4_counterexample :
    delFailLedger.GetState (lit "r1")
      = .ok (some (ratingJSON ⟨lit "r1", lit "A", 5, lit "ok"⟩)) ∧
    (DeleteRating delFailLedger (lit "r1")).1 = .error (.host (lit "unavailable")) := by
  decide

/-- C4, amended: when the ledger holds a value under `id` and its delete succeeds,
`DeleteRating(id)` succeeds, after which `ReadRating(id)` fails with "the rating <id> does
not exist" and a second `DeleteRating(id)` fails with the same error and leaves the ledger
as it was. -/
theorem C4_delete (s : Stub) (id v : GoString) (hv : s.GetState id = .ok (some v))
    (hdel : s.delErr id = none) :
    (DeleteRating s id).1 = .ok () ∧
    ReadRating (DeleteRating s id).2 id
      = .error (.errorf (lit "the rating " ++ id ++ lit " does not exist")) ∧
    DeleteRating (DeleteRating s id).2 id
      = (.error (.errorf (lit "the rating " ++ id ++ lit " does not exist")),
          (DeleteRating s id).2) := by
  have hg := ((GetState_ok_iff s id (some v)).mp hv).1
  have hd : DeleteRating s id = (.ok (), { s with state := deleteKV id s.state }) := by
    rw [DeleteRating_of_present s id v hv]
    simp [Stub.DelState, hdel]
  rw [hd]
  exact ⟨rfl, ReadRating_of_absent _ id (GetState_after_delete s id hg),
    DeleteRating_of_absent _ id (GetState_after_delete s id hg)⟩

/-- C4, witness: the ledger holding `r1`. -/
theorem C4_delete_witness :
    ((ledgerOf oneRating).GetState (lit "r1")
        = .ok (some (ratingJSON ⟨lit "r1", lit "A", 5, lit "ok"⟩)) ∧
      (ledgerOf oneRating).delErr (lit "r1") = none) ∧
    (DeleteRating (ledgerOf oneRating) (lit "r1")).1 = .ok () :=
  ⟨by decide, (C4_delete (ledgerOf oneRating) (lit "r1")
    (ratingJSON ⟨lit "r1", lit "A", 5, lit "ok"⟩) (by decide) (by decide)).1⟩

/-! ## Lemmas on the scans -/

theorem getAllLoop_acc (items : List (Except GoError (GoString × GoString)))
    (acc : List Rating) :
    getAllLoop items acc = (getAllLoop items []).map (fun rs => acc ++ rs) := by
  induction items generalizing acc with
  | nil => simp [getAllLoop, Except.map]
  | cons it rest ih =>
    cases it with
    | error e => simp [getAllLoop, Except.map]
    | ok q =>
      cases hq : jsonUnmarshal q.2 with
      | error e => simp [getAllLoop, hq, Except.map]
      | ok r =>
        simp only [getAllLoop, hq, List.nil_append]
        rw [ih (acc ++ [r]), ih [r]]
        cases getAllLoop rest [] <;> simp [Except.map]

theorem getAllLoop_cons_ok (q : GoString × GoString)
    (rest : List (Except GoError (GoString × GoString))) (rs : List Rating)
    (h : getAllLoop (.ok q :: rest) [] = .ok rs) :
    ∃ r rs', jsonUnmarshal q.2 = .ok r ∧ getAllLoop rest [] = .ok rs' ∧ rs = r :: rs' := by
  cases hq : jsonUnmarshal q.2 with
  | error e => simp [getAllLoop, hq] at h
  | ok r =>
    simp only [getAllLoop, hq, List.nil_append] at h
    rw [getAllLoop_acc] at h
    cases hr : getAllLoop rest [] with
    | error e => simp [hr, Except.map] at h
    | ok rs' =>
      simp only [hr, Except.map, Except.ok.injEq] at h
      exact ⟨r, rs', rfl, rfl, by simpa using h.symm⟩

theorem ratingsForPlaceLoop_eq (place : GoString)
    (items : List (Except GoError (GoString × GoString))) (rs : List Rating)
    (h : getAllLoop items [] = .ok rs) (acc : List Rating) :
    ratingsForPlaceLoop place items acc
      = .ok (acc ++ rs.filter (fun r => r.Place = place)) := by
  induction items generalizing rs acc with
  | nil =>
    simp only [getAllLoop, Except.ok.injEq] at h
    subst h
    simp [ratingsForPlaceLoop]
  | cons it rest ih =>
    cases it with
    | error e => simp [getAllLoop] at h
    | ok q =>
      obtain ⟨r, rs', hq, hr, rfl⟩ := getAllLoop_cons_ok q rest rs h
      simp only [ratingsForPlaceLoop, hq]
      by_cases hp : r.Place = place
      · rw [if_pos hp, ih rs' hr]
        simp [List.filter_cons, hp]
      · rw [if_neg hp, ih rs' hr]
        simp [List.filter_cons, hp]

theorem wrap64_add_wrap64 (a b : Int) : wrap64 (wrap64 a + b) = wrap64 (a + b) := by
  unfold wrap64
  omega

theorem wrap64_of_isInt64 (a : Int) (h : isInt64 a) : wrap64 a = a := by
  unfold isInt64 at h
  unfold wrap64
  omega

theorem averageLoop_eq (place : GoString)
    (items : List (Except GoError (GoString × GoString))) (rs : List Rating)
    (h : getAllLoop items [] = .ok rs) (acc : Int × Int) :
    averageLoop place items acc
      = .ok (wrap64 (wrap64 acc.1
            + ((rs.filter (fun r => r.Place = place)).map (fun r => r.Grade)).sum) ,
          acc.2 + ((rs.filter (fun r => r.Place = place)).length : Int)) ∨
    ((rs.filter (fun r => r.Place = place)) = [] ∧ averageLoop place items acc = .ok acc) := by
  induction items generalizing rs acc with
  | nil =>
    simp only [getAllLoop, Except.ok.injEq] at h
    subst h
    right
    simp [averageLoop]
  | cons it rest ih =>
    cases it with
    | error e => simp [getAllLoop] at h
    | ok q =>
      obtain ⟨r, rs', hq, hr, rfl⟩ := getAllLoop_cons_ok q rest rs h
      simp only [averageLoop, hq]
      by_cases hp : r.Place = place
      · rw [if_pos hp]
        left
        rcases ih rs' hr (wrap64 (acc.1 + r.Grade), acc.2 + 1) with h1 | ⟨h0, h1⟩
        · rw [h1]
          simp only [List.filter_cons, hp, decide_True, if_true, List.map_cons, List.sum_cons,
            List.length_cons]
          congr 2
          · generalize ((rs'.filter (fun r => r.Place = place)).map (fun r => r.Grade)).sum = S
            simp only [wrap64]
            omega
          · push_cast; ring
        · rw [h1]
          simp only [List.filter_cons, hp, decide_True, if_true, h0, List.map_cons,
            List.map_nil, List.sum_cons, List.sum_nil, List.length_cons, List.length_nil]
          congr 2
          · simp only [wrap64]
            omega
      · rw [if_neg hp]
        rcases ih rs' hr acc with h1 | ⟨h0, h1⟩
        · left; rw [h1]; simp [List.filter_cons, hp]
        · right; exact ⟨by simp [List.filter_cons, hp, h0], h1⟩

theorem GetAllRatings_ok_inv (s : Stub) (rs : List Rating) (h : GetAllRatings s = .ok rs) :
    ∃ items, s.GetStateByRange = .ok items ∧ getAllLoop items [] = .ok rs := by
  unfold GetAllRatings at h
  cases hr : s.GetStateByRange with
  | error e => simp [hr] at h
  | ok items => exact ⟨items, rfl, by simpa [hr] using h⟩

theorem GetRatingsForPlace_eq (s : Stub) (place : GoString) (rs : List Rating)
    (hall : GetAllRatings s = .ok rs) :
    GetRatingsForPlace s place
      = if rs.filter (fun r => r.Place = place) = [] then
          .error (.errorf (lit "no ratings found for place " ++ place))
        else .ok (rs.filter (fun r => r.Place = place)) := by
  obtain ⟨items, hr, hl⟩ := GetAllRatings_ok_inv s rs hall
  unfold GetRatingsForPlace
  simp only [hr, ratingsForPlaceLoop_eq place items rs hl [], List.nil_append]
  by_cases h : rs.filter (fun r => r.Place = place) = []
  · simp [h]
  · simp [h]

theorem GetRatingsForPlace_ne_nil (s : Stub) (place : GoString) (l : List Rating)
    (h : GetRatingsForPlace s place = .ok l) : l ≠ [] := by
  unfold GetRatingsForPlace at h
  cases hr : s.GetStateByRange with
  | error e => simp [hr] at h
  | ok items =>
    simp only [hr] at h
    cases hl : ratingsForPlaceLoop place items [] with
    | error e => simp [hl] at h
    | ok l' =>
      simp only [hl] at h
      split_ifs at h with h0
      simp only [Except.ok.injEq] at h
      subst h
      intro hnil
      exact h0 (by simp [hnil])

theorem CalculateAverage_eq {F : Type} (ops : Float64Ops F) (s : Stub) (place : GoString)
    (rs : List Rating) (hall : GetAllRatings s = .ok rs) :
    CalculateAverageGradeForPlace ops s place
      = if rs.filter (fun r => r.Place = place) = [] then
          .error (.errorf (lit "no ratings found for place " ++ place))
        else .ok (averageOf ops rs place) := by
  obtain ⟨items, hr, hl⟩ := GetAllRatings_ok_inv s rs hall
  have hw0 : wrap64 0 = 0 := by decide
  unfold CalculateAverageGradeForPlace
  simp only [hr]
  rcases averageLoop_eq place items rs hl (0, 0) with h1 | ⟨h0, h1⟩
  · rw [h1]
    simp only [hw0, zero_add]
    by_cases h : rs.filter (fun r => r.Place = place) = []
    · simp [h]
    · have hlen : ((rs.filter (fun r => r.Place = place)).length : Int) ≠ 0 := by
        simpa using h
      simp only [h, if_false, hlen]
      rfl
  · rw [h1]
    simp [h0]

/-! ## C5: average grade of a place -/

/-- C5, counterexample: two stored ratings of the place `A` with the grade 2^62 each.
Their grades add up to 2^63 and their count is 2, yet the call returns the quotient of
-2^63 by 2, since the running total is a Go `int`. -/
theorem C5_counterexample :
    GetAllRatings overflowLedger
      = .ok [⟨lit "r1", lit "A", 4611686018427387904, lit ""⟩,
          ⟨lit "r2", lit "A", 4611686018427387904, lit ""⟩] ∧
    CalculateAverageGradeForPlace ratOps overflowLedger (lit "A")
      = .ok (ratOps.div (ratOps.ofInt (-9223372036854775808)) (ratOps.ofInt 2)) ∧
    CalculateAverageGradeForPlace ratOps overflowLedger (lit "A")
      ≠ .ok (ratOps.div (ratOps.ofInt (4611686018427387904 + 4611686018427387904))
          (ratOps.ofInt 2)) := by
  have hall : GetAllRatings overflowLedger
      = .ok [⟨lit "r1", lit "A", 4611686018427387904, lit ""⟩,
          ⟨lit "r2", lit "A", 4611686018427387904, lit ""⟩] := by decide
  have h := CalculateAverage_eq ratOps overflowLedger (lit "A") _ hall
  have hf : List.filter (fun r : Rating => decide (r.Place = lit "A"))
      [⟨lit "r1", lit "A", 4611686018427387904, lit ""⟩,
        ⟨lit "r2", lit "A", 4611686018427387904, lit ""⟩] ≠ [] := by decide
  have ht : gradeTotal [⟨lit "r1", lit "A", 4611686018427387904, lit ""⟩,
      ⟨lit "r2", lit "A", 4611686018427387904, lit ""⟩] (lit "A")
      = -9223372036854775808 := by decide
  have hc : placeCount [⟨lit "r1", lit "A", 4611686018427387904, lit ""⟩,
      ⟨lit "r2", lit "A", 4611686018427387904, lit ""⟩] (lit "A") = 2 := by decide
  rw [if_neg hf] at h
  simp only [averageOf, ht, hc] at h
  refine ⟨hall, h, ?_⟩
  rw [h]
  simp only [ratOps, ne_eq, Except.ok.injEq]
  norm_num

/-- C5, amended: on a ledger whose scan succeeds and whose values all decode as Ratings
(`GetAllRatings` returns `rs`): if a record has the place, `CalculateAverageGradeForPlace`
succeeds and returns the quotient of the sum of the grades of the matching records, reduced
to 64 bits two's complement, by their number, that is the quotient of the exact sum
whenever it fits a Go `int`; if no record matches it fails with "no ratings found for place
<place>".  For the ratings `[(A, 4), (A, 2), (B, 5)]` the result for `A` is 3 and the call
for `C` fails. -/
theorem C5_average {F : Type} (ops : Float64Ops F) (s : Stub) (place : GoString)
    (rs : List Rating) (hall : GetAllRatings s = .ok rs) :
    ((∃ r ∈ rs, r.Place = place) →
      CalculateAverageGradeForPlace ops s place
        = .ok (ops.div (ops.ofInt (gradeTotal rs place)) (ops.ofInt (placeCount rs place))) ∧
      (isInt64 ((rs.filter (fun r => r.Place = place)).map (fun r => r.Grade)).sum →
        gradeTotal rs place
          = ((rs.filter (fun r => r.Place = place)).map (fun r => r.Grade)).sum)) ∧
    ((¬ ∃ r ∈ rs, r.Place = place) →
      CalculateAverageGradeForPlace ops s place
        = .error (.errorf (lit "no ratings found for place " ++ place))) ∧
    CalculateAverageGradeForPlace ratOps abLedger (lit "A") = .ok 3 ∧
    CalculateAverageGradeForPlace ratOps abLedger (lit "C")
      = .error (.errorf (lit "no ratings found for place " ++ lit "C")) := by
  have h := CalculateAverage_eq ops s place rs hall
  have hfilter : rs.filter (fun r => r.Place = place) = [] ↔ ¬ ∃ r ∈ rs, r.Place = place := by
    simp [List.filter_eq_nil_iff]
  refine ⟨?_, ?_, ?_, ?_⟩
  · intro hex
    have hne : rs.filter (fun r => r.Place = place) ≠ [] := fun h0 => hfilter.mp h0 hex
    rw [if_neg hne] at h
    exact ⟨h, fun hi => wrap64_of_isInt64 _ hi⟩
  · intro hno
    rw [if_pos (hfilter.mpr hno)] at h
    exact h
  · have hall' : GetAllRatings abLedger
        = .ok [⟨lit "r1", lit "A", 4, lit ""⟩, ⟨lit "r2", lit "A", 2, lit ""⟩,
            ⟨lit "r3", lit "B", 5, lit ""⟩] := by decide
    have h' := CalculateAverage_eq ratOps abLedger (lit "A") _ hall'
    have hf : List.filter (fun r : Rating => decide (r.Place = lit "A"))
        [⟨lit "r1", lit "A", 4, lit ""⟩, ⟨lit "r2", lit "A", 2, lit ""⟩,
          ⟨lit "r3", lit "B", 5, lit ""⟩] ≠ [] := by decide
    have ht : gradeTotal [⟨lit "r1", lit "A", 4, lit ""⟩, ⟨lit "r2", lit "A", 2, lit ""⟩,
        ⟨lit "r3", lit "B", 5, lit ""⟩] (lit "A") = 6 := by decide
    have hc : placeCount [⟨lit "r1", lit "A", 4, lit ""⟩, ⟨lit "r2", lit "A", 2, lit ""⟩,
        ⟨lit "r3", lit "B", 5, lit ""⟩] (lit "A") = 2 := by decide
    rw [if_neg hf] at h'
    simp only [averageOf, ht, hc] at h'
    rw [h']
    simp only [ratOps, Except.ok.injEq]
    norm_num
  · have hall' : GetAllRatings abLedger
        = .ok [⟨lit "r1", lit "A", 4, lit ""⟩, ⟨lit "r2", lit "A", 2, lit ""⟩,
            ⟨lit "r3", lit "B", 5, lit ""⟩] := by decide
    have h' := CalculateAverage_eq ratOps abLedger (lit "C") _ hall'
    have hf : List.filter (fun r : Rating => decide (r.Place = lit "C"))
        [⟨lit "r1", lit "A", 4, lit ""⟩, ⟨lit "r2", lit "A", 2, lit ""⟩,
          ⟨lit "r3", lit "B", 5, lit ""⟩] = [] := by decide
    rw [if_pos hf] at h'
    exact h'

/-- C5, witness: the ledger of `[(A, 4), (A, 2), (B, 5)]` and the place `A`. -/
theorem C5_average_witness :
    GetAllRatings abLedger = .ok abRatings ∧
    CalculateAverageGradeForPlace ratOps abLedger (lit "A")
      = .ok (ratOps.div (ratOps.ofInt (gradeTotal abRatings (lit "A")))
          (ratOps.ofInt (placeCount abRatings (lit "A")))) :=
  ⟨by decide, ((C5_average ratOps abLedger (lit "A") abRatings (by decide)).1
    ⟨⟨lit "r1", lit "A", 4, lit ""⟩, by decide, rfl⟩).1⟩

/-! ## C7: ratings of a place -/

/-- C7: on a ledger where `GetAllRatings` returns `rs`, `GetRatingsForPlace(place)` returns
exactly the records of `rs` whose place is `place`, in the order of the scan, when there is
one, and fails with "no ratings found for place <place>" when there is none; on no ledger
does it return an empty list as a success. -/
theorem C7_ratings_for_place (s : Stub) (place : GoString) (rs : List Rating)
    (hall : GetAllRatings s = .ok rs) :
    (rs.filter (fun r => r.Place = place) ≠ [] →
      GetRatingsForPlace s place = .ok (rs.filter (fun r => r.Place = place))) ∧
    (rs.filter (fun r => r.Place = place) = [] →
      GetRatingsForPlace s place
        = .error (.errorf (lit "no ratings found for place " ++ place))) ∧
    (rs.filter (fun r => r.Place = place)).Sublist rs ∧
    (∀ (s0 : Stub) (l : List Rating), GetRatingsForPlace s0 place = .ok l → l ≠ []) := by
  have h := GetRatingsForPlace_eq s place rs hall
  refine ⟨fun hne => by rw [h, if_neg hne], fun he => by rw [h, if_pos he],
    List.filter_sublist _, fun s0 l hl => GetRatingsForPlace_ne_nil s0 place l hl⟩

/-- C7, witness: the ledger of `[(A, 4), (A, 2), (B, 5)]` and the place `A`. -/
theorem C7_ratings_for_place_witness :
    GetAllRatings abLedger = .ok abRatings ∧
    GetRatingsForPlace abLedger (lit "A")
      = .ok (abRatings.filter (fun r => r.Place = lit "A")) :=
  ⟨by decide, (C7_ratings_for_place abLedger (lit "A") abRatings (by decide)).1 (by decide)⟩

/-! ## C8: the stored bytes -/

theorem objectKeys_ratingJSON (r : Rating) (h : isInt64 r.Grade) :
    objectKeys (ratingJSON r) = some [lit "Id", lit "Place", lit "Grade", lit "Comment"] := by
  unfold objectKeys
  rw [parseJSON_ratingJSON r h]
  rfl

theorem UpdateRating_ok_inv (s : Stub) (id place : GoString) (grade : Int)
    (comment : GoString) (h : (UpdateRating s id place grade comment).1 = .ok ()) :
    (∃ v, s.GetState id = .ok (some v)) ∧
      s.putErr id (ratingJSON ⟨id, place, grade, comment⟩) = none := by
  unfold UpdateRating RatingExists Stub.GetState at h
  unfold Stub.GetState
  cases hg : s.getErr id with
  | some e => simp [hg] at h
  | none =>
    cases hl : s.state.lookup id with
    | none => simp [hg, hl] at h
    | some v =>
      cases hp : s.putErr id (ratingJSON ⟨id, place, grade, comment⟩) with
      | some e => simp [hg, hl, jsonMarshal, Stub.PutState, hp] at h
      | none => simp

/-- C8, counterexample: the bytes `CreateRating` stores under `r1` on the empty ledger are
an object whose member names are `Id`, `Place`, `Grade`, `Comment`, which are not the names
`id`, `place`, `grade`, `comment`. -/
theorem C8_counterexample :
    ((CreateRating emptyLedger (lit "r1") (lit "A") 5 (lit "ok")).2.state.lookup (lit "r1")).bind
        objectKeys = some [lit "Id", lit "Place", lit "Grade", lit "Comment"] ∧
    ((CreateRating emptyLedger (lit "r1") (lit "A") 5 (lit "ok")).2.state.lookup (lit "r1")).bind
        objectKeys ≠ some [lit "id", lit "place", lit "grade", lit "comment"] := by
  decide

/-- C8, amended: the bytes a successful `CreateRating` or `UpdateRating` stores under `id`,
for a grade that is a Go `int`, are a JSON object with exactly four members whose names
are, in this order and with this case, `Id`, `Place`, `Grade` and `Comment`. -/
theorem C8_stored_fields (s : Stub) (id place : GoString) (grade : Int) (comment : GoString)
    (hgrade : isInt64 grade) :
    ((CreateRating s id place grade comment).1 = .ok () →
      ∃ v, (CreateRating s id place grade comment).2.state.lookup id = some v ∧
        objectKeys v = some [lit "Id", lit "Place", lit "Grade", lit "Comment"]) ∧
    ((UpdateRating s id place grade comment).1 = .ok () →
      ∃ v, (UpdateRating s id place grade comment).2.state.lookup id = some v ∧
        objectKeys v = some [lit "Id", lit "Place", lit "Grade", lit "Comment"]) := by
  constructor
  · intro hok
    obtain ⟨hget, hput⟩ := CreateRating_ok_inv s id place grade comment hok
    rw [CreateRating_of_absent s id place grade comment hget hput]
    exact ⟨_, lookup_putKV_self _ _ _, objectKeys_ratingJSON _ hgrade⟩
  · intro hok
    obtain ⟨⟨v, hget⟩, hput⟩ := UpdateRating_ok_inv s id place grade comment hok
    rw [UpdateRating_of_present s id place grade comment v hget]
    simp only [Stub.PutState, hput]
    exact ⟨_, lookup_putKV_self _ _ _, objectKeys_ratingJSON _ hgrade⟩

/-- C8, witness: a record created on the empty ledger. -/
theorem C8_stored_fields_witness :
    (isInt64 5 ∧ (CreateRating emptyLedger (lit "r1") (lit "A") 5 (lit "ok")).1 = .ok ()) ∧
    ∃ v, (CreateRating emptyLedger (lit "r1") (lit "A") 5 (lit "ok")).2.state.lookup (lit "r1")
        = some v ∧
      objectKeys v = some [lit "Id", lit "Place", lit "Grade", lit "Comment"] :=
  ⟨by decide, (C8_stored_fields emptyLedger (lit "r1") (lit "A") 5 (lit "ok") (by decide)).1
    (by decide)⟩

/-! ## Lemmas on reachable ledgers -/

theorem insertKV_perm (k v : GoString) (l : List (GoString × GoString)) :
    (insertKV k v l).Perm ((k, v) :: l) := by
  induction l with
  | nil => simp [insertKV]
  | cons p l ih =>
    simp only [insertKV]
    split_ifs
    · exact List.Perm.refl _
    · exact (List.Perm.cons p ih).trans (List.Perm.swap _ _ _)

theorem putKV_inv (k : GoString) (r : Rating) (l : List (GoString × GoString))
    (hk : r.Id = k) (hg : isInt64 r.Grade)
    (hn : (l.map Prod.fst).Nodup)
    (hv : ∀ kv ∈ l, ∃ r : Rating, isInt64 r.Grade ∧ r.Id = kv.1 ∧ kv.2 = ratingJSON r) :
    ((putKV k (ratingJSON r) l).map Prod.fst).Nodup ∧
    ∀ kv ∈ putKV k (ratingJSON r) l,
      ∃ r : Rating, isInt64 r.Grade ∧ r.Id = kv.1 ∧ kv.2 = ratingJSON r := by
  have hp := insertKV_perm k (ratingJSON r) (deleteKV k l)
  constructor
  · rw [putKV, (hp.map Prod.fst).nodup_iff]
    simp only [List.map_cons, List.nodup_cons]
    constructor
    · simp [deleteKV, List.mem_map, List.mem_filter]
    · exact (hn.sublist ((List.filter_sublist l).map Prod.fst))
  · intro kv hkv
    rw [putKV, hp.mem_iff] at hkv
    rcases List.mem_cons.mp hkv with rfl | hmem
    · exact ⟨r, hg, hk, rfl⟩
    · exact hv kv (List.mem_of_mem_filter hmem)

theorem deleteKV_inv (k : GoString) (l : List (GoString × GoString))
    (hn : (l.map Prod.fst).Nodup)
    (hv : ∀ kv ∈ l, ∃ r : Rating, isInt64 r.Grade ∧ r.Id = kv.1 ∧ kv.2 = ratingJSON r) :
    ((deleteKV k l).map Prod.fst).Nodup ∧
    ∀ kv ∈ deleteKV k l,
      ∃ r : Rating, isInt64 r.Grade ∧ r.Id = kv.1 ∧ kv.2 = ratingJSON r :=
  ⟨hn.sublist ((List.filter_sublist l).map Prod.fst),
    fun kv hkv => hv kv (List.mem_of_mem_filter hkv)⟩

theorem CreateRating_state (s : Stub) (id place : GoString) (grade : Int)
    (comment : GoString) :
    (CreateRating s id place grade comment).2.state = s.state ∨
    (CreateRating s id place grade comment).2.state
      = putKV id (ratingJSON ⟨id, place, grade, comment⟩) s.state := by
  unfold CreateRating
  cases hr : RatingExists s id with
  | error e => left; rfl
  | ok b =>
    cases b with
    | true => left; rfl
    | false =>
      simp only [jsonMarshal, Stub.PutState]
      cases hp : s.putErr id (ratingJSON ⟨id, place, grade, comment⟩) with
      | some e => left; rfl
      | none => right; rfl

theorem UpdateRating_state (s : Stub) (id place : GoString) (grade : Int)
    (comment : GoString) :
    (UpdateRating s id place grade comment).2.state = s.state ∨
    (UpdateRating s id place grade comment).2.state
      = putKV id (ratingJSON ⟨id, place, grade, comment⟩) s.state := by
  unfold UpdateRating
  cases hr : RatingExists s id with
  | error e => left; rfl
  | ok b =>
    cases b with
    | false => left; rfl
    | true =>
      simp only [jsonMarshal, Stub.PutState]
      cases hp : s.putErr id (ratingJSON ⟨id, place, grade, comment⟩) with
      | some e => left; rfl
      | none => right; rfl

theorem DeleteRating_state (s : Stub) (id : GoString) :
    (DeleteRating s id).2.state = s.state ∨
    (DeleteRating s id).2.state = deleteKV id s.state := by
  unfold DeleteRating
  cases hr : RatingExists s id with
  | error e => left; rfl
  | ok b =>
    cases b with
    | false => left; rfl
    | true =>
      simp only [Stub.DelState]
      cases hp : s.delErr id with
      | some e => left; rfl
      | none => right; rfl

theorem reachable_inv (s : Stub) (h : Reachable s) :
    (s.state.map Prod.fst).Nodup ∧
    ∀ kv ∈ s.state, ∃ r : Rating, isInt64 r.Grade ∧ r.Id = kv.1 ∧ kv.2 = ratingJSON r := by
  induction h with
  | empty s h0 => simp [h0]
  | initLedger s _ ih => exact ih
  | create s id place grade comment _ hg ih =>
    rcases CreateRating_state s id place grade comment with h | h
    · rw [h]; exact ih
    · rw [h]; exact putKV_inv id ⟨id, place, grade, comment⟩ s.state rfl hg ih.1 ih.2
  | update s id place grade comment _ hg ih =>
    rcases UpdateRating_state s id place grade comment with h | h
    · rw [h]; exact ih
    · rw [h]; exact putKV_inv id ⟨id, place, grade, comment⟩ s.state rfl hg ih.1 ih.2
  | delete s id _ ih =>
    rcases DeleteRating_state s id with h | h
    · rw [h]; exact ih
    · rw [h]; exact deleteKV_inv id s.state ih.1 ih.2

theorem getAllLoop_iterResults (nextErr : Nat → Option GoError)
    (l : List (GoString × GoString))
    (hv : ∀ kv ∈ l, ∃ r : Rating, isInt64 r.Grade ∧ r.Id = kv.1 ∧ kv.2 = ratingJSON r)
    (i : Nat) :
    (∃ e j, nextErr j = some e ∧ getAllLoop (iterResults nextErr i l) [] = .error e) ∨
    (∃ rs, getAllLoop (iterResults nextErr i l) [] = .ok rs ∧
      rs.map (fun r => r.Id) = l.map (fun kv => toValidUTF8 kv.1)) := by
  induction l generalizing i with
  | nil => right; exact ⟨[], rfl, rfl⟩
  | cons kv l ih =>
    obtain ⟨r, hg, hid, hjson⟩ := hv kv (List.mem_cons_self _ _)
    have hv' : ∀ kv ∈ l, ∃ r : Rating, isInt64 r.Grade ∧ r.Id = kv.1 ∧ kv.2 = ratingJSON r :=
      fun x hx => hv x (List.mem_cons_of_mem _ hx)
    simp only [iterResults]
    cases hn : nextErr i with
    | some e => left; exact ⟨e, i, hn, by simp [getAllLoop]⟩
    | none =>
      simp only [getAllLoop, hjson, jsonUnmarshal_ratingJSON r hg, List.nil_append]
      rw [getAllLoop_acc]
      rcases ih hv' (i + 1) with ⟨e, j, hj, he⟩ | ⟨rs, hrs, hids⟩
      · left; exact ⟨e, j, hj, by simp [he, Except.map]⟩
      · right
        refine ⟨⟨toValidUTF8 r.Id, toValidUTF8 r.Place, r.Grade, toValidUTF8 r.Comment⟩ :: rs,
          by simp [hrs, Except.map], ?_⟩
        simp [hids, hid]

/-! ## C9: reachable ledgers -/

/-- C9, counterexample: after two `CreateRating` calls on the empty ledger with the ids
`0xFE` and `0xFF`, the ledger holds these two keys, and `GetAllRatings` returns two records
whose `Id` is U+FFFD for both: no `Id` equals its key, and the `Id` is repeated. -/
theorem C9_counterexample :
    Reachable twoBadIdsLedger ∧
    twoBadIdsLedger.state.map Prod.fst = [[0xFE], [0xFF]] ∧
    GetAllRatings twoBadIdsLedger
      = .ok [⟨[0xEF, 0xBF, 0xBD], lit "A", 1, []⟩, ⟨[0xEF, 0xBF, 0xBD], lit "A", 2, []⟩] :=
  ⟨Reachable.create _ [0xFF] (lit "A") 2 []
      (Reachable.create _ [0xFE] (lit "A") 1 [] (Reachable.empty emptyLedger rfl) (by decide))
      (by decide),
    by decide, by decide⟩

/-- C9, amended: in every ledger reachable from an empty world state by `InitLedger`,
`CreateRating`, `UpdateRating` and `DeleteRating` calls, no key occurs twice; every value
decodes as a Rating whose `Id` is the key with each byte that is not valid UTF-8 replaced by
U+FFFD, hence the key itself when the key is valid UTF-8; when `GetAllRatings` fails, its
error is one the host returned for the scan, never a decoding error; when it succeeds, the
`Id`s it returns are the keys so coerced, in scan order, and when every key is valid UTF-8
they are exactly the keys, none repeated. -/
theorem C9_reachable (s : Stub) (h : Reachable s) :
    (s.state.map Prod.fst).Nodup ∧
    (∀ kv ∈ s.state, ∃ r : Rating, jsonUnmarshal kv.2 = .ok r ∧ r.Id = toValidUTF8 kv.1 ∧
      (validUTF8 kv.1 = true → r.Id = kv.1)) ∧
    (∀ e, GetAllRatings s = .error e → s.rangeErr = some e ∨ ∃ j, s.nextErr j = some e) ∧
    (∀ rs, GetAllRatings s = .ok rs →
      rs.map (fun r => r.Id) = s.state.map (fun kv => toValidUTF8 kv.1) ∧
      ((∀ kv ∈ s.state, validUTF8 kv.1 = true) →
        rs.map (fun r => r.Id) = s.state.map Prod.fst ∧ (rs.map (fun r => r.Id)).Nodup)) := by
  obtain ⟨hn, hv⟩ := reachable_inv s h
  have hscan := getAllLoop_iterResults s.nextErr s.state hv 0
  refine ⟨hn, ?_, ?_, ?_⟩
  · intro kv hkv
    obtain ⟨r, hg, hid, hjson⟩ := hv kv hkv
    refine ⟨⟨toValidUTF8 r.Id, toValidUTF8 r.Place, r.Grade, toValidUTF8 r.Comment⟩, ?_, ?_, ?_⟩
    · rw [hjson]; exact jsonUnmarshal_ratingJSON r hg
    · simp [hid]
    · intro hval
      simp only [hid]
      exact toValidUTF8_of_valid _ hval
  · intro e he
    unfold GetAllRatings Stub.GetStateByRange at he
    cases hr : s.rangeErr with
    | some e' =>
      left
      simp only [hr, Except.error.injEq] at he
      rw [he]
    | none =>
      right
      simp only [hr] at he
      rcases hscan with ⟨e', j, hj, he'⟩ | ⟨rs, hrs, _⟩
      · rw [he'] at he
        simp only [Except.error.injEq] at he
        exact ⟨j, by rw [hj, he]⟩
      · rw [hrs] at he
        simp at he
  · intro rs hrs
    unfold GetAllRatings Stub.GetStateByRange at hrs
    cases hr : s.rangeErr with
    | some e' => simp [hr] at hrs
    | none =>
      simp only [hr] at hrs
      rcases hscan with ⟨e', j, hj, he'⟩ | ⟨rs', hrs', hids⟩
      · rw [he'] at hrs
        simp at hrs
      · rw [hrs'] at hrs
        simp only [Except.ok.injEq] at hrs
        subst hrs
        refine ⟨hids, fun hval => ?_⟩
        have heq : s.state.map (fun kv => toValidUTF8 kv.1) = s.state.map Prod.fst :=
          List.map_congr_left (fun kv hkv => toValidUTF8_of_valid _ (hval kv hkv))
        rw [hids, heq]
        exact ⟨rfl, hn⟩

/-- C9, witness: the ledger reached by creating one record on the empty ledger. -/
theorem C9_reachable_witness :
    Reachable (CreateRating emptyLedger (lit "r1") (lit "A") 5 (lit "ok")).2 ∧
    ((CreateRating emptyLedger (lit "r1") (lit "A") 5 (lit "ok")).2.state.map Prod.fst).Nodup :=
  ⟨Reachable.create _ _ _ _ _ (Reachable.empty emptyLedger rfl) (by decide),
    (C9_reachable _ (Reachable.create _ (lit "r1") (lit "A") 5 (lit "ok")
      (Reachable.empty emptyLedger rfl) (by decide))).1⟩

/-! ## Lemmas on the map of places -/

theorem PlaceDataMap.lookup_set_self (m : PlaceDataMap) (k : GoString) (v : Int × Int) :
    (m.set k v).lookup k = some v := by
  induction m with
  | nil => simp [PlaceDataMap.set, List.lookup]
  | cons p m ih =>
    simp only [PlaceDataMap.set]
    split_ifs with h
    · simp [List.lookup]
    · have hne : (k == p.1) = false := by simpa using fun e => h e.symm
      simp only [List.lookup, hne]
      exact ih

theorem PlaceDataMap.lookup_set_other (m : PlaceDataMap) (k k' : GoString) (v : Int × Int)
    (hk : k' ≠ k) : (m.set k v).lookup k' = m.lookup k' := by
  have hne : (k' == k) = false := by simpa using hk
  induction m with
  | nil => simp [PlaceDataMap.set, List.lookup, hne]
  | cons p m ih =>
    simp only [PlaceDataMap.set]
    split_ifs with h
    · subst h; simp [List.lookup, hne]
    · cases hb : (k' == p.1) <;> simp [List.lookup, hb, ih]

theorem PlaceDataMap.keys_set (m : PlaceDataMap) (k : GoString) (v : Int × Int) :
    (m.set k v).map Prod.fst
      = if k ∈ m.map Prod.fst then m.map Prod.fst else m.map Prod.fst ++ [k] := by
  induction m with
  | nil => simp [PlaceDataMap.set]
  | cons p m ih =>
    simp only [PlaceDataMap.set]
    split_ifs with h h1 h2
    · simp [h]
    · exfalso; exact h1 (by simp [h])
    · simp only [List.map_cons, ih]
      have : k ∈ m.map Prod.fst := by
        rcases List.mem_cons.mp h2 with e | e
        · exact absurd e.symm h
        · exact e
      simp [this]
    · simp only [List.map_cons, ih]
      have : k ∉ m.map Prod.fst := fun e => h2 (List.mem_cons_of_mem _ e)
      simp [this]

theorem lookup_ne_none_iff_mem (m : PlaceDataMap) (k : GoString) :
    m.lookup k ≠ none ↔ k ∈ m.map Prod.fst := by
  induction m with
  | nil => simp [List.lookup]
  | cons p m ih =>
    cases hb : (k == p.1) with
    | true =>
      have : k = p.1 := by simpa using hb
      simp [List.lookup, hb, this]
    | false =>
      have : k ≠ p.1 := by simpa using hb
      simp [List.lookup, hb, ih, this]

theorem gradeTotal_append_singleton (done : List Rating) (r : Rating) :
    gradeTotal (done ++ [r]) r.Place = wrap64 (gradeTotal done r.Place + r.Grade) := by
  unfold gradeTotal
  simp only [List.filter_append, List.filter_cons, List.filter_nil, decide_True, if_true,
    List.map_append, List.map_cons, List.map_nil, List.sum_append, List.sum_cons, List.sum_nil,
    add_zero]
  rw [wrap64_add_wrap64]

theorem gradeTotal_nil (p : GoString) : gradeTotal [] p = 0 := by
  simp [gradeTotal, wrap64]

theorem placeData_step_inv (m : PlaceDataMap) (done : List Rating) (r : Rating)
    (hn : (m.map Prod.fst).Nodup)
    (hl : ∀ p, m.lookup p = if done.filter (fun x => x.Place = p) = [] then none
      else some (gradeTotal done p, placeCount done p)) :
    let m' := m.set r.Place (wrap64 (((m.get r.Place).getD (0, 0)).1 + r.Grade),
      ((m.get r.Place).getD (0, 0)).2 + 1)
    (m'.map Prod.fst).Nodup ∧
    ∀ p, m'.lookup p = if (done ++ [r]).filter (fun x => x.Place = p) = [] then none
      else some (gradeTotal (done ++ [r]) p, placeCount (done ++ [r]) p) := by
  intro m'
  constructor
  · simp only [m', PlaceDataMap.keys_set]
    split_ifs with h
    · exact hn
    · exact List.Nodup.append hn (List.nodup_singleton _) (by simpa using h)
  · intro p
    by_cases hp : p = r.Place
    · subst hp
      simp only [m', PlaceDataMap.lookup_set_self]
      have hne : (done ++ [r]).filter (fun x => x.Place = r.Place) ≠ [] := by simp
      rw [if_neg hne, gradeTotal_append_singleton]
      have hget : m.get r.Place = m.lookup r.Place := rfl
      rw [hget, hl r.Place]
      by_cases h0 : done.filter (fun x => x.Place = r.Place) = []
      · simp [h0, gradeTotal, placeCount, List.filter_append, wrap64]
      · simp [h0, placeCount, List.filter_append]
    · simp only [m', PlaceDataMap.lookup_set_other _ _ _ _ hp, hl p]
      have hr : ¬ r.Place = p := fun e => hp e.symm
      simp [List.filter_append, gradeTotal, placeCount, hr]

theorem placeData_foldl_inv (rs : List Rating) (m : PlaceDataMap) (done : List Rating)
    (hn : (m.map Prod.fst).Nodup)
    (hl : ∀ p, m.lookup p = if done.filter (fun x => x.Place = p) = [] then none
      else some (gradeTotal done p, placeCount done p)) :
    let m' := rs.foldl (fun m rating =>
      m.set rating.Place (wrap64 (((m.get rating.Place).getD (0, 0)).1 + rating.Grade),
        ((m.get rating.Place).getD (0, 0)).2 + 1)) m
    (m'.map Prod.fst).Nodup ∧
    ∀ p, m'.lookup p = if (done ++ rs).filter (fun x => x.Place = p) = [] then none
      else some (gradeTotal (done ++ rs) p, placeCount (done ++ rs) p) := by
  induction rs generalizing m done with
  | nil =>
    simp only [List.foldl_nil, List.append_nil]
    exact ⟨hn, hl⟩
  | cons r rs ih =>
    obtain ⟨hn', hl'⟩ := placeData_step_inv m done r hn hl
    have := ih _ (done ++ [r]) hn' hl'
    simp only [List.append_assoc, List.singleton_append] at this
    simpa only [List.foldl_cons] using this

theorem placeData_spec (rs : List Rating) :
    ((placeData rs).map Prod.fst).Nodup ∧
    (∀ p, (placeData rs).lookup p = if rs.filter (fun x => x.Place = p) = [] then none
      else some (gradeTotal rs p, placeCount rs p)) ∧
    (∀ p, p ∈ (placeData rs).map Prod.fst ↔ ∃ r ∈ rs, r.Place = p) := by
  have h := placeData_foldl_inv rs [] [] (by simp) (by simp [List.lookup])
  simp only [List.nil_append] at h
  refine ⟨h.1, h.2, fun p => ?_⟩
  rw [← lookup_ne_none_iff_mem, show (placeData rs).lookup p = _ from h.2 p]
  by_cases h0 : rs.filter (fun x => x.Place = p) = []
  · simp only [h0, if_true, ne_eq, not_true_eq_false, false_iff]
    simpa [List.filter_eq_nil_iff] using h0
  · simp only [h0, if_false, ne_eq, reduceCtorEq, not_false_eq_true, true_iff]
    simpa [List.filter_eq_nil_iff] using h0

/-! ## Lemmas on the report -/

theorem flatMap_congr_mem {α β : Type} (l : List α) (f g : α → List β)
    (h : ∀ x ∈ l, f x = g x) : l.flatMap f = l.flatMap g := by
  induction l with
  | nil => rfl
  | cons a l ih =>
    simp only [List.flatMap_cons]
    rw [h a (List.mem_cons_self _ _), ih (fun x hx => h x (List.mem_cons_of_mem _ hx))]

theorem placeAverage_placeData {F : Type} (ops : Float64Ops F) (rs : List Rating)
    (p : GoString) (hp : ∃ r ∈ rs, r.Place = p) :
    placeAverage ops (placeData rs) p = averageOf ops rs p := by
  have hne : rs.filter (fun x => x.Place = p) ≠ [] := by
    simpa [List.filter_eq_nil_iff] using hp
  have hl := (placeData_spec rs).2.1 p
  rw [if_neg hne] at hl
  unfold placeAverage averageOf PlaceDataMap.get
  rw [hl]
  rfl

theorem StrictWeak.comap {α β : Type} (gt : β → β → Bool) (f : α → β) (h : StrictWeak gt) :
    StrictWeak (fun a b => gt (f a) (f b)) :=
  ⟨fun a => h.1 (f a), fun a b c => h.2.1 (f a) (f b) (f c),
    fun a b c => h.2.2 (f a) (f b) (f c)⟩

theorem GetRating_report {F : Type} (ops : Float64Ops F)
    (mapRange : List GoString → List GoString)
    (sortSlice : (GoString → GoString → Bool) → List GoString → List GoString)
    (s : Stub) (rs : List Rating) (hall : GetAllRatings s = .ok rs)
    (hgt : StrictWeak ops.gt) (hrange : RangeContract mapRange)
    (hsort : SortContract sortSlice) :
    ∃ places : List GoString,
      GetRating ops mapRange sortSlice s
        = .ok (reportHeader ++ places.flatMap (fun p =>
            ops.format2 (averageOf ops rs p) ++ (lit "\t\t" ++ (p ++ lit "\n")))) ∧
      places.Nodup ∧
      (∀ p, p ∈ places ↔ ∃ r ∈ rs, r.Place = p) ∧
      places.Pairwise (fun a b => ops.gt (averageOf ops rs b) (averageOf ops rs a) = false) ∧
      (rs = [] → places = []) := by
  obtain ⟨hn, _, hmem⟩ := placeData_spec rs
  let less : GoString → GoString → Bool := fun placeI placeJ =>
    ops.gt (placeAverage ops (placeData rs) placeI) (placeAverage ops (placeData rs) placeJ)
  have hless : StrictWeak less := StrictWeak.comap ops.gt _ hgt
  obtain ⟨hperm1, hsorted⟩ := hsort less (mapRange ((placeData rs).map Prod.fst))
  have hperm : (sortSlice less (mapRange ((placeData rs).map Prod.fst))).Perm
      ((placeData rs).map Prod.fst) := hperm1.trans (hrange _)
  have hmem' : ∀ p, p ∈ sortSlice less (mapRange ((placeData rs).map Prod.fst))
      ↔ ∃ r ∈ rs, r.Place = p := fun p => by rw [hperm.mem_iff, hmem p]
  refine ⟨sortSlice less (mapRange ((placeData rs).map Prod.fst)), ?_, ?_, hmem', ?_, ?_⟩
  · unfold GetRating
    simp only [hall]
    congr 2
    apply flatMap_congr_mem
    intro p hp
    unfold reportLine
    rw [placeAverage_placeData ops rs p ((hmem' p).mp hp)]
  · exact hperm.nodup_iff.mpr hn
  · refine (hsorted hless).imp_of_mem ?_
    intro a b ha hb hab
    simp only [less] at hab
    rwa [placeAverage_placeData ops rs a ((hmem' a).mp ha),
      placeAverage_placeData ops rs b ((hmem' b).mp hb)] at hab
  · intro hnil
    subst hnil
    apply List.eq_nil_iff_forall_not_mem.mpr
    intro p hp
    simpa using (hmem' p).mp hp

theorem ratOps_strictWeak : StrictWeak ratOps.gt := by
  refine ⟨fun a => ?_, fun a b c h1 h2 => ?_, fun a b c h1 h2 => ?_⟩
  · simp [ratOps]
  · simp only [ratOps, decide_eq_true_eq] at h1 h2 ⊢
    exact lt_trans h2 h1
  · simp only [ratOps, decide_eq_false_iff_not, not_lt] at h1 h2 ⊢
    exact le_trans h1 h2

theorem insertionSortSlice_contract : SortContract insertionSortSlice := by
  intro less l
  refine ⟨List.perm_insertionSort _ l, fun h => ?_⟩
  haveI : IsTotal GoString (fun a b => less b a = false) := ⟨fun a b => by
    cases hab : less b a with
    | false => exact Or.inl rfl
    | true =>
      right
      cases hba : less a b with
      | false => rfl
      | true => have := h.2.1 a b a hba hab; rw [h.1 a] at this; exact absurd this (by simp)⟩
  haveI : IsTrans GoString (fun a b => less b a = false) :=
    ⟨fun a b c hab hbc => h.2.2 c b a hbc hab⟩
  exact List.sorted_insertionSort (fun a b => less b a = false) l

theorem id_rangeContract : RangeContract (fun l => l) := fun l => List.Perm.refl l

theorem formatFixed2_neg : ratOps.format2 (-4611686018427387904) = lit "-4611686018427387904.00" := by
  have h : ((-4611686018427387904 : ℚ)) = ((-4611686018427387904 : ℤ) : ℚ) := by norm_num
  simp only [ratOps, formatFixed2]
  rw [h]
  simp only [Rat.num_intCast, Rat.den_intCast]
  have hneg : (((-4611686018427387904 : ℤ) : ℚ) < 0) := by norm_num
  simp only [hneg, if_true]
  decide

theorem abc_averages :
    averageOf ratOps abcRatings (lit "A") = 9 / 2 ∧
    averageOf ratOps abcRatings (lit "B") = 3 ∧
    averageOf ratOps abcRatings (lit "C") = 9 / 2 := by
  have a1 : gradeTotal abcRatings (lit "A") = 9 := by decide
  have a2 : placeCount abcRatings (lit "A") = 2 := by decide
  have b1 : gradeTotal abcRatings (lit "B") = 3 := by decide
  have b2 : placeCount abcRatings (lit "B") = 1 := by decide
  have c1 : gradeTotal abcRatings (lit "C") = 9 := by decide
  have c2 : placeCount abcRatings (lit "C") = 2 := by decide
  simp only [averageOf, ratOps, a1, a2, b1, b2, c1, c2]
  norm_num
theorem formatFixed2_nine_halves : ratOps.format2 (9 / 2) = lit "4.50" := by
  have hn : ((9 : ℚ) / 2).num = 9 := by
    have := Rat.num_div_eq_of_coprime (a := 9) (b := 2) (by decide) (by norm_num)
    simpa using this
  have hd : ((9 : ℚ) / 2).den = 2 := by
    have := Rat.den_div_eq_of_coprime (a := 9) (b := 2) (by decide) (by norm_num)
    have h2 : (((9 : ℚ) / 2).den : ℤ) = 2 := by simpa using this
    exact_mod_cast h2
  have hpos : ¬ ((9 : ℚ) / 2 < 0) := by norm_num
  simp only [ratOps, formatFixed2, hn, hd, hpos, if_false]
  decide

theorem formatFixed2_three : ratOps.format2 3 = lit "3.00" := by
  have h : (3 : ℚ) = ((3 : ℤ) : ℚ) := by norm_num
  simp only [ratOps, formatFixed2]
  rw [h]
  simp only [Rat.num_intCast, Rat.den_intCast]
  have hpos : ¬ (((3 : ℤ) : ℚ) < 0) := by norm_num
  simp only [hpos, if_false]
  decide

theorem abc_places (places : List GoString) (hn : places.Nodup)
    (hmem : ∀ p, p ∈ places ↔ ∃ r ∈ abcRatings, r.Place = p)
    (hs : places.Pairwise (fun a b =>
      ratOps.gt (averageOf ratOps abcRatings b) (averageOf ratOps abcRatings a) = false)) :
    places = [lit "A", lit "C", lit "B"] ∨ places = [lit "C", lit "A", lit "B"] := by
  obtain ⟨hA, hB, hC⟩ := abc_averages
  have hAB : lit "A" ≠ lit "B" := by decide
  have hAC : lit "A" ≠ lit "C" := by decide
  have hBC : lit "B" ≠ lit "C" := by decide
  have hmem' : ∀ p, p ∈ places ↔ p = lit "A" ∨ p = lit "B" ∨ p = lit "C" := by
    intro p
    rw [hmem p]
    simp only [abcRatings, List.mem_cons, List.mem_singleton, List.not_mem_nil, or_false,
      exists_eq_or_imp, exists_eq_left]
    constructor
    · rintro (h | h | h | h | h) <;> simp [← h]
    · rintro (h | h | h) <;> simp [h]
  have hperm : places.Perm [lit "A", lit "B", lit "C"] :=
    (List.perm_ext_iff_of_nodup hn (by decide)).mpr (fun p => by rw [hmem' p]; simp)
  have hlen := hperm.length_eq
  obtain ⟨x, y, z, rfl⟩ := List.length_eq_three.mp hlen
  have hx := (hmem' x).mp (by simp)
  have hy := (hmem' y).mp (by simp)
  have hz := (hmem' z).mp (by simp)
  simp only [List.nodup_cons, List.mem_cons, List.mem_singleton, List.not_mem_nil, or_false,
    not_or, List.nodup_nil, and_true] at hn
  simp only [List.pairwise_cons, List.mem_cons, List.mem_singleton, List.not_mem_nil,
    or_false, forall_eq_or_imp, forall_eq, IsEmpty.forall_iff, implies_true,
    List.Pairwise.nil, and_true] at hs
  have gAB : ratOps.gt (9 / 2) 3 = true := by simp [ratOps]; norm_num
  rcases hx with rfl | rfl | rfl <;> rcases hy with rfl | rfl | rfl <;>
    rcases hz with rfl | rfl | rfl <;>
    simp_all

theorem abc_report (mapRange : List GoString → List GoString)
    (sortSlice : (GoString → GoString → Bool) → List GoString → List GoString)
    (hrange : RangeContract mapRange) (hsort : SortContract sortSlice) :
    GetRating ratOps mapRange sortSlice abcLedger
      = .ok (lit "Average Grade\t\tPlace\n4.50\t\tA\n4.50\t\tC\n3.00\t\tB\n") ∨
    GetRating ratOps mapRange sortSlice abcLedger
      = .ok (lit "Average Grade\t\tPlace\n4.50\t\tC\n4.50\t\tA\n3.00\t\tB\n") := by
  obtain ⟨places, hrep, hn, hmem, hs, _⟩ := GetRating_report ratOps mapRange sortSlice
    abcLedger abcRatings (by decide) ratOps_strictWeak hrange hsort
  obtain ⟨hA, hB, hC⟩ := abc_averages
  have fA := formatFixed2_nine_halves
  have fB := formatFixed2_three
  rcases abc_places places hn hmem hs with rfl | rfl
  · left
    rw [hrep]
    simp only [List.flatMap_cons, List.flatMap_nil, hA, hB, hC, fA, fB]
    decide
  · right
    rw [hrep]
    simp only [List.flatMap_cons, List.flatMap_nil, hA, hB, hC, fA, fB]
    decide

theorem overflow_report :
    GetRating ratOps (fun l => l) insertionSortSlice overflowLedger
      = .ok (lit "Average Grade\t\tPlace\n-4611686018427387904.00\t\tA\n") := by
  obtain ⟨places, hrep, hn, hmem, _, _⟩ := GetRating_report ratOps (fun l => l)
    insertionSortSlice overflowLedger overflowRatings (by decide) ratOps_strictWeak
    id_rangeContract insertionSortSlice_contract
  have hmem' : ∀ p, p ∈ places ↔ p = lit "A" := by
    intro p
    rw [hmem p]
    simp only [overflowRatings, List.mem_cons, List.mem_singleton, List.not_mem_nil, or_false,
      exists_eq_or_imp, exists_eq_left]
    constructor
    · rintro (h | h) <;> simp [← h]
    · rintro h; simp [h]
  have hperm : places.Perm [lit "A"] :=
    (List.perm_ext_iff_of_nodup hn (by decide)).mpr (fun p => by rw [hmem' p]; simp)
  have hpl : places = [lit "A"] := List.perm_singleton.mp hperm
  have t1 : gradeTotal overflowRatings (lit "A") = -9223372036854775808 := by decide
  have t2 : placeCount overflowRatings (lit "A") = 2 := by decide
  have hav : averageOf ratOps overflowRatings (lit "A") = -4611686018427387904 := by
    simp only [averageOf, ratOps, t1, t2]
    norm_num
  rw [hrep, hpl]
  simp only [List.flatMap_cons, List.flatMap_nil, hav, formatFixed2_neg]
  decide

/-! ## C6: the report -/

/-- C6, counterexample: the ledger holds two ratings of the place `A` with the grade 2^62
each, so the average grade of `A` is 2^62; the report carries -4611686018427387904.00 for
`A`, since the total of a place is a Go `int`. -/
theorem C6_counterexample :
    GetAllRatings overflowLedger = .ok overflowRatings ∧
    (overflowRatings.map (fun r => r.Grade)).sum = 2 * 4611686018427387904 ∧
    overflowRatings.length = 2 ∧
    (∀ r ∈ overflowRatings, r.Place = lit "A") ∧
    GetRating ratOps (fun l => l) insertionSortSlice overflowLedger
      = .ok (lit "Average Grade\t\tPlace\n-4611686018427387904.00\t\tA\n") :=
  ⟨by decide, by decide, by decide, by decide, overflow_report⟩

/-- C6, amended: on a ledger where `GetAllRatings` returns `rs`, for a comparison of
`float64` that is a strict weak ordering and a runtime whose map iteration and `sort.Slice`
meet their contracts, `GetRating` succeeds and returns the header line followed by one line
per place of a list `places` in which every place of `rs` occurs exactly once and no other
(none when `rs` is empty); each line carries the `%.2f` rendering of the place's average and
its name, the average being the quotient of the sum of its grades reduced to 64 bits two's
complement by the number of its records; no line has a greater average than a line before
it.  For averages `A: 4.5`, `B: 3.0`, `C: 4.5` the line of `B` is last and the lines of `A`
and `C` come in either order. -/
theorem C6_report {F : Type} (ops : Float64Ops F)
    (mapRange : List GoString → List GoString)
    (sortSlice : (GoString → GoString → Bool) → List GoString → List GoString)
    (s : Stub) (rs : List Rating) (hall : GetAllRatings s = .ok rs)
    (hgt : StrictWeak ops.gt) (hrange : RangeContract mapRange)
    (hsort : SortContract sortSlice) :
    (∃ places : List GoString,
      GetRating ops mapRange sortSlice s
        = .ok (reportHeader ++ places.flatMap (fun p =>
            ops.format2 (averageOf ops rs p) ++ (lit "\t\t" ++ (p ++ lit "\n")))) ∧
      places.Nodup ∧
      (∀ p, p ∈ places ↔ ∃ r ∈ rs, r.Place = p) ∧
      places.Pairwise (fun a b => ops.gt (averageOf ops rs b) (averageOf ops rs a) = false) ∧
      (rs = [] → places = [])) ∧
    (averageOf ratOps abcRatings (lit "A") = 9 / 2 ∧
      averageOf ratOps abcRatings (lit "B") = 3 ∧
      averageOf ratOps abcRatings (lit "C") = 9 / 2) ∧
    (GetRating ratOps mapRange sortSlice abcLedger
        = .ok (lit "Average Grade\t\tPlace\n4.50\t\tA\n4.50\t\tC\n3.00\t\tB\n") ∨
      GetRating ratOps mapRange sortSlice abcLedger
        = .ok (lit "Average Grade\t\tPlace\n4.50\t\tC\n4.50\t\tA\n3.00\t\tB\n")) :=
  ⟨GetRating_report ops mapRange sortSlice s rs hall hgt hrange hsort, abc_averages,
    abc_report mapRange sortSlice hrange hsort⟩

/-- C6, witness: the ledger of averages `A: 4.5`, `B: 3.0`, `C: 4.5`, read with exact
quotients, maps iterated in insertion order and insertion sort. -/
theorem C6_report_witness :
    (GetAllRatings abcLedger = .ok abcRatings ∧ StrictWeak ratOps.gt ∧
      RangeContract (fun l => l) ∧ SortContract insertionSortSlice) ∧
    (GetRating ratOps (fun l => l) insertionSortSlice abcLedger
        = .ok (lit "Average Grade\t\tPlace\n4.50\t\tA\n4.50\t\tC\n3.00\t\tB\n") ∨
      GetRating ratOps (fun l => l) insertionSortSlice abcLedger
        = .ok (lit "Average Grade\t\tPlace\n4.50\t\tC\n4.50\t\tA\n3.00\t\tB\n")) :=
  ⟨⟨by decide, ratOps_strictWeak, id_rangeContract, insertionSortSlice_contract⟩,
    (C6_report ratOps (fun l => l) insertionSortSlice abcLedger abcRatings (by decide)
      ratOps_strictWeak id_rangeContract insertionSortSlice_contract).2.2⟩

/-! ## C10: existence -/

theorem RatingExists_after_create (s : Stub) (id place : GoString) (grade : Int)
    (comment : GoString) (hcreate : (CreateRating s id place grade comment).1 = .ok ()) :
    RatingExists (CreateRating s id place grade comment).2 id = .ok true := by
  obtain ⟨hnone, hput⟩ := CreateRating_ok_inv s id place grade comment hcreate
  have hg := ((GetState_ok_iff s id none).mp hnone).1
  rw [CreateRating_of_absent s id place grade comment hnone hput]
  exact RatingExists_of_GetState _ id (some (ratingJSON ⟨id, place, grade, comment⟩))
    (by simp [Stub.GetState, hg, lookup_putKV_self])

theorem RatingExists_after_delete (s : Stub) (id : GoString)
    (hdelete : (DeleteRating s id).1 = .ok ()) :
    RatingExists (DeleteRating s id).2 id = .ok false := by
  cases hget : s.GetState id with
  | error e =>
    simp [DeleteRating, RatingExists, hget] at hdelete
  | ok x =>
    cases x with
    | none =>
      rw [DeleteRating_of_absent s id hget] at hdelete
      simp at hdelete
    | some v =>
      have hg := ((GetState_ok_iff s id (some v)).mp hget).1
      rw [DeleteRating_of_present s id v hget] at hdelete ⊢
      simp only [Stub.DelState] at hdelete ⊢
      cases hd : s.delErr id with
      | some e => simp [hd] at hdelete
      | none =>
        simp only [hd]
        exact RatingExists_of_GetState _ id none (GetState_after_delete s id hg)

/-- C10: on every ledger and for every `id`: when the ledger holds no value under `id`,
`RatingExists(id)` returns false; after every successful `CreateRating(id, ...)` it returns
true, whether or not a delete follows; after a following successful `DeleteRating(id)`, and
after any successful `DeleteRating(id)`, it returns false.  `RatingExists(id)` returns true
exactly when the ledger holds a value under `id`, and it returns without error whenever the
get of the ledger succeeds. -/
theorem C10_rating_exists (s : Stub) (id : GoString) :
    (s.GetState id = .ok none → RatingExists s id = .ok false) ∧
    (∀ (place : GoString) (grade : Int) (comment : GoString),
      (CreateRating s id place grade comment).1 = .ok () →
      RatingExists (CreateRating s id place grade comment).2 id = .ok true ∧
      ((DeleteRating (CreateRating s id place grade comment).2 id).1 = .ok () →
        RatingExists (DeleteRating (CreateRating s id place grade comment).2 id).2 id
          = .ok false)) ∧
    ((DeleteRating s id).1 = .ok () → RatingExists (DeleteRating s id).2 id = .ok false) ∧
    (RatingExists s id = .ok true ↔ ∃ v, s.GetState id = .ok (some v)) ∧
    (∀ x, s.GetState id = .ok x → RatingExists s id = .ok x.isSome) := by
  refine ⟨fun hnone => RatingExists_of_GetState s id none hnone, ?_,
    fun hdelete => RatingExists_after_delete s id hdelete, ?_,
    fun x hx => RatingExists_of_GetState s id x hx⟩
  · intro place grade comment hcreate
    exact ⟨RatingExists_after_create s id place grade comment hcreate,
      fun hdelete => RatingExists_after_delete _ id hdelete⟩
  · constructor
    · intro h
      unfold RatingExists at h
      cases hx : s.GetState id with
      | error e => simp [hx] at h
      | ok x =>
        cases x with
        | none => simp [hx] at h
        | some v => exact ⟨v, rfl⟩
    · rintro ⟨v, hv⟩
      exact RatingExists_of_GetState s id _ hv

/-- C10, witness: on the empty ledger `r1` does not exist; it exists after a successful
create; it does not exist after the delete that follows. -/
theorem C10_rating_exists_witness :
    (emptyLedger.GetState (lit "r1") = .ok none ∧
      (CreateRating emptyLedger (lit "r1") (lit "A") 5 (lit "ok")).1 = .ok () ∧
      (DeleteRating (CreateRating emptyLedger (lit "r1") (lit "A") 5 (lit "ok")).2
        (lit "r1")).1 = .ok ()) ∧
    (RatingExists emptyLedger (lit "r1") = .ok false ∧
      RatingExists (CreateRating emptyLedger (lit "r1") (lit "A") 5 (lit "ok")).2 (lit "r1")
        = .ok true ∧
      RatingExists (DeleteRating (CreateRating emptyLedger (lit "r1") (lit "A") 5
        (lit "ok")).2 (lit "r1")).2 (lit "r1") = .ok false) :=
  ⟨by decide,
    have h := C10_rating_exists emptyLedger (lit "r1")
    ⟨h.1 (by decide), (h.2.1 (lit "A") 5 (lit "ok") (by decide)).1,
      (h.2.1 (lit "A") 5 (lit "ok") (by decide)).2 (by decide)⟩⟩

/-! ## C11: the empty ledger -/

theorem iterResults_length (nextErr : Nat → Option GoError) (l : List (GoString × GoString))
    (i : Nat) : (iterResults nextErr i l).length = l.length := by
  induction l generalizing i with
  | nil => rfl
  | cons kv l ih => simp [iterResults, ih]

theorem AreRatingsEmpty_of_scan (s : Stub) (hscan : s.rangeErr = none) :
    AreRatingsEmpty s = .ok s.state.isEmpty := by
  unfold AreRatingsEmpty Stub.GetStateByRange
  simp only [hscan]
  cases hst : s.state with
  | nil => rfl
  | cons kv l => rfl

/-- C11, counterexample: a ledger whose world state is empty and whose range scan fails:
`AreRatingsEmpty` does not return true and `GetAllRatings` does not return an empty
sequence, both return the error of the scan; and with one key in the world state and a
failing scan `AreRatingsEmpty` does not return false. -/
theorem C11_counterexample :
    (rangeFailLedger []).state = [] ∧
    AreRatingsEmpty (rangeFailLedger []) = .error (.host (lit "unavailable")) ∧
    GetAllRatings (rangeFailLedger []) = .error (.host (lit "unavailable")) ∧
    (rangeFailLedger oneRating).state.length = 1 ∧
    AreRatingsEmpty (rangeFailLedger oneRating) = .error (.host (lit "unavailable")) := by
  decide

/-- C11, amended: on a ledger whose `GetStateByRange` succeeds, `AreRatingsEmpty` returns
true exactly when the scan yields zero keys; when the world state is empty it returns true
and `GetAllRatings` succeeds with an empty sequence; when the world state holds at least
one key it returns false.  On every ledger, a result of `AreRatingsEmpty` is true exactly
when the world state holds no key. -/
theorem C11_are_ratings_empty (s : Stub) (hscan : s.rangeErr = none) :
    (∃ items, s.GetStateByRange = .ok items ∧ items.length = s.state.length ∧
      AreRatingsEmpty s = .ok (decide (items.length = 0))) ∧
    (AreRatingsEmpty s = .ok true ↔ s.state.map Prod.fst = []) ∧
    (s.state = [] → AreRatingsEmpty s = .ok true ∧ GetAllRatings s = .ok []) ∧
    (s.state ≠ [] → AreRatingsEmpty s = .ok false) ∧
    (∀ (s0 : Stub) (b : Bool), AreRatingsEmpty s0 = .ok b → (b = true ↔ s0.state = [])) := by
  have h := AreRatingsEmpty_of_scan s hscan
  refine ⟨?_, ?_, ?_, ?_, ?_⟩
  · refine ⟨iterResults s.nextErr 0 s.state, by simp [Stub.GetStateByRange, hscan],
      iterResults_length _ _ _, ?_⟩
    rw [h, iterResults_length]
    cases s.state <;> simp
  · rw [h]
    cases s.state <;> simp
  · intro h0
    refine ⟨by rw [h, h0]; rfl, ?_⟩
    simp [GetAllRatings, Stub.GetStateByRange, hscan, h0, iterResults, getAllLoop]
  · intro hne
    rw [h]
    cases hst : s.state with
    | nil => exact absurd hst hne
    | cons kv l => rfl
  · intro s0 b hb
    unfold AreRatingsEmpty Stub.GetStateByRange at hb
    cases hr : s0.rangeErr with
    | some e => simp [hr] at hb
    | none =>
      simp only [hr, Except.ok.injEq] at hb
      rw [← hb]
      cases s0.state <;> simp [iterResults]

/-- C11, witness: the empty ledger, every call succeeding. -/
theorem C11_are_ratings_empty_witness :
    emptyLedger.rangeErr = none ∧
    AreRatingsEmpty emptyLedger = .ok true ∧ GetAllRatings emptyLedger = .ok [] :=
  ⟨rfl, (C11_are_ratings_empty emptyLedger rfl).2.2.1 rfl⟩

end RightPlace
